import Mathlib

/-!
Verification of the time-logs plugin core (marker grammar, line mutator,
auto-detection of task completion, range parser, corpus extractor, CSV
encoder) against its natural-language specification.

Strings are modelled as lists of characters (`Str`).  Each definition in
the `TimeLogs` namespace is a direct shallow embedding of the
corresponding source function; regular expressions are translated to
explicit scanners with the same matching semantics (leftmost match,
non-greedy inner capture, greedy optional groups).  The wall-clock
timestamp is threaded as an explicit argument, as the specification
treats it as an input.
-/

namespace TimeLogs

abbrev Str := List Char

/-- Whitespace class used by the source's regexes and by string trimming
(the ASCII part that can actually occur in the data model). -/
def isWS (c : Char) : Bool :=
  c = ' ' || c = '\t' || c = '\n' || c = '\r' || c = '\x0b' || c = '\x0c'

/-- Remove leading and trailing whitespace, as the source's trim calls do. -/
def trimS (s : Str) : Str := ((s.dropWhile isWS).reverse.dropWhile isWS).reverse

/-- Split a document into lines at every LF or CRLF, keeping lone CR
characters inside lines (the source splits on the pattern CR-optional
then LF). -/
def splitLines : Str → List Str
  | [] => [[]]
  | '\r' :: '\n' :: rest => [] :: splitLines rest
  | '\n' :: rest => [] :: splitLines rest
  | c :: rest =>
    match splitLines rest with
    | l :: ls => (c :: l) :: ls
    | [] => [[c]]

/-- Join lines with a single LF, as the source's final join does. -/
def joinLF : List Str → Str
  | [] => []
  | [l] => l
  | l :: ls => l ++ '\n' :: joinLF ls

/-- Split on every semicolon (the entry delimiter), keeping empty pieces,
as the source's split on the delimiter character does. -/
def splitSemi : Str → List Str
  | [] => [[]]
  | ';' :: rest => [] :: splitSemi rest
  | c :: rest =>
    match splitSemi rest with
    | l :: ls => (c :: l) :: ls
    | [] => [[c]]

/-- The marker open token. -/
def OPEN : Str := '[' :: 't' :: 'i' :: 'm' :: 'e' :: '-' :: 'l' :: 'o' :: 'g' :: 's' :: ':' :: ':' :: []

/-- Characters matched by the regex dot (anything but a line terminator). -/
def isDot (c : Char) : Bool :=
  !(c = '\n' || c = '\r' || c = '\u2028' || c = '\u2029')

/-- Scan the non-greedy inner capture of the marker regex: take characters
up to the first close bracket; fail on a line terminator or on running
out of input. Returns the inner text and the text after the close
bracket. -/
def grabInner : Str → Option (Str × Str)
  | [] => none
  | c :: cs =>
    if c = ']' then some ([], cs)
    else if isDot c then (grabInner cs).map (fun p => (c :: p.1, p.2))
    else none

/-- Locate the first marker occurrence on a line (leftmost position where
the open token matches and the inner capture can complete), returning
the text before the match, the inner text, and the text after the close
bracket. -/
def findMarker : Str → Option (Str × Str × Str)
  | [] => none
  | c :: cs =>
    if OPEN.isPrefixOf (c :: cs) then
      match grabInner ((c :: cs).drop OPEN.length) with
      | some (inner, rest) => some ([], inner, rest)
      | none =>
        match findMarker cs with
        | some (pre, inner, rest) => some (c :: pre, inner, rest)
        | none => none
    else
      match findMarker cs with
      | some (pre, inner, rest) => some (c :: pre, inner, rest)
      | none => none

/-- Does a line contain a time-log marker? -/
def containsTimeLogs (line : Str) : Bool := (findMarker line).isSome

/-- The entries encoded by a marker's inner text: split on the delimiter,
trim each piece, drop empty pieces (as the extractor does). -/
def entriesOfInner (inner : Str) : List Str :=
  ((splitSemi (trimS inner)).map trimS).filter (fun e => !e.isEmpty)

/-- The entries of the first marker on a line (none if no marker). -/
def entriesOfLine (line : Str) : List Str :=
  match findMarker line with
  | some (_, inner, _) => entriesOfInner inner
  | none => []

/-- Characters allowed in the inline metadata body parts (anything except
brackets and LF, per the regex character class). -/
def isBodyChar (c : Char) : Bool := !(c = '[' || c = ']' || c = '\n')

/-- Can the tail of the inline metadata pattern (optional whitespace, body
characters, close bracket) match a prefix of the text after the double
colon? -/
def dvTailOk (post : Str) : Bool :=
  let q := post.takeWhile (fun c => c ≠ ']')
  post.any (fun c => c = ']') && q.all (fun c => c ≠ '[') &&
    (q.dropWhile isWS).all (fun c => c ≠ '\n')

/-- Can the head of the inline metadata pattern (body characters then
optional whitespace) match the text between the open bracket and the
double colon? -/
def dvPreOk (pre : Str) : Bool :=
  pre.all (fun c => !(c = '[' || c = ']')) &&
    (pre.reverse.dropWhile isWS).all (fun c => c ≠ '\n')

/-- Does the inline metadata pattern match the text following an open
bracket, for some split around a double colon? -/
def dvAfterOpen (cs : Str) : Bool :=
  (List.range (cs.length + 1)).any fun i =>
    match cs.drop i with
    | ':' :: ':' :: post => dvPreOk (cs.take i) && dvTailOk post
    | _ => false

/-- Index of the first inline metadata token (a bracketed key-value pair
around a double colon), as the source's regex search returns; none when
absent. -/
def findDVIdx : Str → Option Nat
  | [] => none
  | c :: cs =>
    if c = '[' && dvAfterOpen cs then some 0
    else (findDVIdx cs).map (· + 1)

/-- Does the line end in a whitespace character? -/
def endsWS (s : Str) : Bool :=
  match s.getLast? with
  | some c => isWS c
  | none => false

/-- Does the line start with a whitespace character? -/
def startsWS (s : Str) : Bool :=
  match s.head? with
  | some c => isWS c
  | none => false

/-- The freshly serialized marker for one timestamp. -/
def timeLogEntry (t : Str) : Str := OPEN ++ ' ' :: (t ++ ';' :: ' ' :: ']' :: [])

/-- Insert text immediately before the first inline metadata token,
padding with single spaces only where the adjoining character is not
already whitespace; append at the end when no token exists. -/
def insertBeforeInlineDataview (line insertion : Str) : Str :=
  match findDVIdx line with
  | none =>
    let sep := if line.length > 0 && !endsWS line then [' '] else []
    line ++ sep ++ insertion
  | some idx =>
    let before := line.take idx
    let after := line.drop idx
    let sepB := if before.length > 0 && !endsWS before then [' '] else []
    let sepA := if after.length > 0 && !startsWS after then [' '] else []
    before ++ sepB ++ insertion ++ sepA ++ after

/-- Append a timestamp to a line: extend the existing marker in place, or
insert a new marker (before the first inline metadata token if any,
else at the end of the line, space-padded when the line does not already
end in whitespace). -/
def appendTimeLogToLine (line currentTime : Str) : Str :=
  match findMarker line with
  | some (pre, inner, post) =>
    let existing := trimS inner
    let newLogs :=
      if existing.isEmpty then ' ' :: (currentTime ++ [';'])
      else existing ++ ' ' :: (currentTime ++ [';'])
    pre ++ OPEN ++ newLogs ++ ' ' :: ']' :: post
  | none =>
    match findDVIdx line with
    | some _ => insertBeforeInlineDataview line (timeLogEntry currentTime)
    | none =>
      let sep := if line.length > 0 && !endsWS line then [' '] else []
      line ++ sep ++ timeLogEntry currentTime

/-- Unchecked task line: optional leading whitespace, a dash, one
whitespace, an open bracket, one whitespace, a close bracket, one
whitespace. -/
def isUncheckedTaskLine (line : Str) : Bool :=
  match line.dropWhile isWS with
  | '-' :: c1 :: '[' :: c2 :: ']' :: c3 :: _ => isWS c1 && isWS c2 && isWS c3
  | _ => false

/-- Checked task line: like the unchecked shape but with an x or X, with
any amount of whitespace around it, between the brackets. -/
def isCheckedTaskLine (line : Str) : Bool :=
  match line.dropWhile isWS with
  | '-' :: c1 :: '[' :: rest =>
    isWS c1 &&
      (match rest.dropWhile isWS with
       | x :: rest2 =>
         (x = 'x' || x = 'X') &&
           (match rest2.dropWhile isWS with
            | ']' :: c3 :: _ => isWS c3
            | _ => false)
       | [] => false)
  | _ => false

/-- Process one line pair of the auto-detection loop: mutate when the line
changed, was an unchecked task, became a checked task, and has no marker
yet; the flag records whether a mutation happened. -/
def processLine (now before after : Str) : Str × Bool :=
  if before = after then (after, false)
  else if isUncheckedTaskLine before && isCheckedTaskLine after && !containsTimeLogs after then
    (appendTimeLogToLine after now, true)
  else (after, false)

/-- The line array after the auto-detection loop (lines beyond the shorter
snapshot pass through unchanged). -/
def doneTaskLines (previousContent newContent now : Str) : List Str :=
  let prevLines := splitLines previousContent
  let currLines := splitLines newContent
  (List.zipWith (fun b a => (processLine now b a).1) prevLines currLines) ++
    currLines.drop prevLines.length

/-- Did any line of the auto-detection loop mutate? -/
def anyDone (previousContent newContent now : Str) : Bool :=
  (List.zipWith (fun b a => (processLine now b a).2) (splitLines previousContent)
    (splitLines newContent)).any id

/-- The auto-detection transform: join the processed lines with LF when
some line mutated, otherwise return the new content untouched. -/
def addTimeLogForDoneTasks (previousContent newContent now : Str) : Str :=
  if anyDone previousContent newContent now then
    joinLF (doneTaskLines previousContent newContent now)
  else newContent

/-- Ten-character date shape: four digits, a dash, two digits, a dash, two
digits. -/
def dateShape : Str → Bool
  | a :: b :: c :: d :: '-' :: e :: f :: '-' :: g :: h :: [] =>
    a.isDigit && b.isDigit && c.isDigit && d.isDigit && e.isDigit && f.isDigit &&
      g.isDigit && h.isDigit
  | _ => false

/-- Match the anchored leading date of the range parser: the first ten
characters when they form a date, plus the remainder. -/
def matchDate (t : Str) : Option (Str × Str) :=
  if dateShape (t.take 10) then some (t.take 10, t.drop 10) else none

/-- Scan one time token (two digits, a colon, two digits, then greedily an
optional colon and two digits), returning it with the remainder. -/
def matchTime : Str → Option (Str × Str)
  | a :: b :: ':' :: c :: d :: rest =>
    if a.isDigit && b.isDigit && c.isDigit && d.isDigit then
      match rest with
      | ':' :: e :: f :: rest2 =>
        if e.isDigit && f.isDigit then some ([a, b, ':', c, d, ':', e, f], rest2)
        else some ([a, b, ':', c, d], rest)
      | _ => some ([a, b, ':', c, d], rest)
    else none
  | _ => none

/-- Append default seconds to a five-character time. -/
def ensureSeconds (t : Str) : Str :=
  if t.length = 5 then t ++ ':' :: '0' :: '0' :: [] else t

/-- Shape one: a dash then a time token filling the rest (to-only). -/
def tryToOnly (rest : Str) : Option Str :=
  if rest.head? = some '-' then
    match matchTime rest.tail with
    | some (t, r) => if r = [] then some t else none
    | none => none
  else none

/-- Shape two: a time token then a final dash (from-only). -/
def tryFromOnly (rest : Str) : Option Str :=
  match matchTime rest with
  | some (t, r) => if r = ['-'] then some t else none
  | none => none

/-- Shape three: a time token, a dash, and a final time token (range). -/
def tryRange (rest : Str) : Option (Str × Str) :=
  match matchTime rest with
  | some (t1, r) =>
    if r.head? = some '-' then
      match matchTime r.tail with
      | some (t2, r2) => if r2 = [] then some (t1, t2) else none
      | none => none
    else none
  | none => none

/-- Shape four: a bare time token filling the rest (treated as to-only). -/
def trySingle (rest : Str) : Option Str :=
  match matchTime rest with
  | some (t, r) => if r = [] then some t else none
  | none => none

/-- The range parser: require a leading date on the trimmed input, then
match the trimmed remainder against the four shapes in priority order;
return two empty strings when nothing matches. -/
def parseFromTo (timeLog : Str) : Str × Str :=
  match matchDate (trimS timeLog) with
  | none => ([], [])
  | some (date, rest0) =>
    let rest := trimS rest0
    match tryToOnly rest with
    | some t => ([], date ++ ' ' :: ensureSeconds t)
    | none =>
      match tryFromOnly rest with
      | some t => (date ++ ' ' :: ensureSeconds t, [])
      | none =>
        match tryRange rest with
        | some (t1, t2) => (date ++ ' ' :: ensureSeconds t1, date ++ ' ' :: ensureSeconds t2)
        | none =>
          match trySingle rest with
          | some t => ([], date ++ ' ' :: ensureSeconds t)
          | none => ([], [])

/-- Word characters for the regex word boundary. -/
def isWordChar (c : Char) : Bool := c.isAlpha || c.isDigit || c = '_'

/-- Does a date-shaped token with a trailing word boundary start here? -/
def dateTokenAt : Str → Bool
  | a :: b :: c :: d :: '-' :: e :: f :: '-' :: g :: h :: rest =>
    a.isDigit && b.isDigit && c.isDigit && d.isDigit && e.isDigit && f.isDigit &&
      g.isDigit && h.isDigit &&
      (match rest with
       | [] => true
       | x :: _ => !isWordChar x)
  | _ => false

/-- The extractor's cheap pre-filter: the entry contains a date-shaped
substring delimited by word boundaries on both sides. -/
def datePreOk (s : Str) : Bool := go true s
where
  go : Bool → Str → Bool
    | _, [] => false
    | boundary, c :: cs => (boundary && dateTokenAt (c :: cs)) || go (!isWordChar c) cs

/-- Normalize a task label: strip an unchecked checkbox marker if leading,
then, on the result, a checked checkbox marker if leading, trimming
after each strip. -/
def normalizeTaskText (text : Str) : Str :=
  let n1 :=
    if ('-' :: ' ' :: '[' :: ' ' :: ']' :: []).isPrefixOf text then trimS (text.drop 5) else text
  if ('-' :: ' ' :: '[' :: 'x' :: ']' :: []).isPrefixOf n1 ||
      ('-' :: ' ' :: '[' :: 'X' :: ']' :: []).isPrefixOf n1 then
    trimS (n1.drop 5)
  else n1

/-- One extracted row. -/
structure Row where
  task : Str
  fromS : Str
  toS : Str
  file : Str
  line : Nat
deriving DecidableEq

/-- Rows contributed by one line of one document: skip marker-less lines
and empty inner text; one row per entry passing the date pre-filter,
with the fields produced by the range parser. -/
def rowsOfLine (path : Str) (idx : Nat) (line : Str) : List Row :=
  match findMarker line with
  | none => []
  | some (pre, inner, post) =>
    if (trimS inner).isEmpty then []
    else
      let taskText := normalizeTaskText (trimS (pre ++ post))
      (entriesOfInner inner).filterMap fun e =>
        if datePreOk e then
          some { task := taskText, fromS := (parseFromTo e).1, toS := (parseFromTo e).2,
                 file := path, line := idx + 1 }
        else none

/-- All rows of a corpus in discovery order (document order, then line
order, then entry order). -/
def collectRowsRaw (docs : List (Str × Str)) : List Row :=
  (docs.map (fun d => ((splitLines d.2).enum.map (fun p => rowsOfLine d.1 p.1 p.2)).flatten)).flatten

/-- The sort key: the from field if non-empty, else the to field if
non-empty, else the empty string. -/
def sortKey (r : Row) : Str :=
  if !r.fromS.isEmpty then r.fromS else if !r.toS.isEmpty then r.toS else []

/-- Lexicographic comparison on character code points. -/
def strLe : Str → Str → Bool
  | [], _ => true
  | _ :: _, [] => false
  | a :: as, b :: bs => a < b || (a = b && strLe as bs)

/-- The extractor: all rows, stably sorted ascending by the sort key.  The
source compares keys with a stable comparison sort on localeCompare; on
the fixed-alphabet fixed-width timestamp keys produced here that
coincides with code-point lexicographic order, modelled by a stable
merge sort. -/
def collectTimeLogRows (docs : List (Str × Str)) : List Row :=
  (collectRowsRaw docs).mergeSort (fun a b => strLe (sortKey a) (sortKey b))

/-- Escape one CSV field: double every quote, and wrap the field in quotes
when it contains a comma, a quote, or an LF. -/
def csvEscape (v : Str) : Str :=
  let escaped := v.flatMap (fun c => if c = '"' then ['"', '"'] else [c])
  if v.any (fun c => c = '"' || c = ',' || c = '\n') then '"' :: (escaped ++ ['"'])
  else escaped

/-- Render a line number in decimal. -/
def natStr (n : Nat) : Str := (Nat.repr n).data

/-- Join cells with commas. -/
def joinComma : List Str → Str
  | [] => []
  | [l] => l
  | l :: ls => l ++ ',' :: joinComma ls

/-- The header cells, in the fixed column order. -/
def headerCells : List Str :=
  [['T', 'a', 's', 'k'], ['F', 'r', 'o', 'm'], ['T', 'o'], ['F', 'i', 'l', 'e'],
    ['L', 'i', 'n', 'e']]

/-- The five cells of one data row, in column order. -/
def rowCells (r : Row) : List Str := [r.task, r.fromS, r.toS, r.file, natStr r.line]

/-- CSV content: the header row, then one line per data row, each cell
escaped, cells comma-joined, rows LF-joined. -/
def createCsvContent (rows : List Row) : Str :=
  joinLF ((headerCells :: rows.map rowCells).map (fun cols => joinComma (cols.map csvEscape)))

/-! ## Specification-side definitions

These definitions follow the words of the specification (not the source)
and are used to state refinement claims about the embedded code. -/

/-- Spec-side: a short time token, two digits, a colon, two digits. -/
def isTime5 : Str → Bool
  | a :: b :: ':' :: c :: d :: [] => a.isDigit && b.isDigit && c.isDigit && d.isDigit
  | _ => false

/-- Spec-side: a long time token, with a colon and two digits of seconds. -/
def isTime8 : Str → Bool
  | a :: b :: ':' :: c :: d :: ':' :: e :: f :: [] =>
    a.isDigit && b.isDigit && c.isDigit && d.isDigit && e.isDigit && f.isDigit
  | _ => false

/-- Spec-side: a time token with optional seconds. -/
def isTimeTok (s : Str) : Bool := isTime5 s || isTime8 s

/-- Spec-side: seconds defaulted to zero when omitted. -/
def padSeconds (t : Str) : Str :=
  if isTime5 t then t ++ ':' :: '0' :: '0' :: [] else t

/-- The range parser as the specification words it: require a leading
date on the trimmed input (else both empty); match the trimmed remainder
against the four shapes in priority order, first match wins, producing
date, space, and time with seconds defaulted; both empty when no shape
matches. -/
def specParse (s : Str) : Str × Str :=
  let t := trimS s
  if dateShape (t.take 10) then
    let date := t.take 10
    let rest := trimS (t.drop 10)
    if rest.head? = some '-' && isTimeTok rest.tail then
      ([], date ++ ' ' :: padSeconds rest.tail)
    else if rest.getLast? = some '-' && isTimeTok rest.dropLast then
      (date ++ ' ' :: padSeconds rest.dropLast, [])
    else if isTime5 (rest.take 5) && (rest.drop 5).head? = some '-' &&
        isTimeTok (rest.drop 5).tail then
      (date ++ ' ' :: padSeconds (rest.take 5), date ++ ' ' :: padSeconds (rest.drop 5).tail)
    else if isTime8 (rest.take 8) && (rest.drop 8).head? = some '-' &&
        isTimeTok (rest.drop 8).tail then
      (date ++ ' ' :: padSeconds (rest.take 8), date ++ ' ' :: padSeconds (rest.drop 8).tail)
    else if isTimeTok rest then ([], date ++ ' ' :: padSeconds rest)
    else ([], [])
  else ([], [])

/-- Well-formed full timestamp: nineteen characters, date, space, time
with seconds present. -/
def isWfTimestamp : Str → Bool
  | a :: b :: c :: d :: '-' :: e :: f :: '-' :: g :: h :: ' ' :: i :: j :: ':' :: k :: l :: ':' :: m :: n :: [] =>
    a.isDigit && b.isDigit && c.isDigit && d.isDigit && e.isDigit && f.isDigit &&
      g.isDigit && h.isDigit && i.isDigit && j.isDigit && k.isDigit && l.isDigit &&
      m.isDigit && n.isDigit
  | _ => false

/-- Spec-side: double every embedded double quote of a field. -/
def doubling : Str → Str
  | [] => []
  | c :: cs => (if c = '"' then ['"', '"'] else [c]) ++ doubling cs

/-- Spec-side: wrap a field in double quotes exactly when it contains a
comma, a double quote, or a newline, doubling embedded quotes; emit any
other field unescaped. -/
def csvEscapeSpec (v : Str) : Str :=
  if v.any (fun c => c = ',' || c = '"' || c = '\n') then '"' :: (doubling v ++ ['"'])
  else v

/-- Spec-side: the literal header line. -/
def headerStr : Str := ('T' :: 'a' :: 's' :: 'k' :: ',' :: 'F' :: 'r' :: 'o' :: 'm' :: ',' :: 'T' :: 'o' :: ',' :: 'F' :: 'i' :: 'l' :: 'e' :: ',' :: 'L' :: 'i' :: 'n' :: 'e' :: [])

/-- Spec-side CSV: the header row always first (even with zero data
rows), then one line per row with the five fields in the fixed order,
each escaped per the claim, comma-joined, LF-joined. -/
def csvSpec (rows : List Row) : Str :=
  joinLF (headerStr :: rows.map (fun r =>
    joinComma ([r.task, r.fromS, r.toS, r.file, natStr r.line].map csvEscapeSpec)))

/-- The fixed timestamp format produced by the wall-clock provider: four
digits, dash, two digits, dash, two digits, space, dash, two digits,
colon, two digits. -/
def tsShape : Str → Bool
  | a :: b :: c :: d :: '-' :: e :: f :: '-' :: g :: h :: ' ' :: '-' :: i :: j :: ':' :: k :: l :: [] =>
    a.isDigit && b.isDigit && c.isDigit && d.isDigit && e.isDigit && f.isDigit &&
      g.isDigit && h.isDigit && i.isDigit && j.isDigit && k.isDigit && l.isDigit
  | _ => false

/-- Does the marker open token occur anywhere in the string? -/
def hasOpen : Str → Bool
  | [] => false
  | c :: cs => OPEN.isPrefixOf (c :: cs) || hasOpen cs

/-- Remove one trailing carriage return (what rejoining with LF and
resplitting does to a non-final line that ended in one). -/
def stripCR (l : Str) : Str := if l.getLast? = some '\r' then l.dropLast else l

/-- The completion transition conditions at one line pair, as the claims
word them. -/
def triggersAt (before after : Str) : Bool :=
  isUncheckedTaskLine before && isCheckedTaskLine after && !containsTimeLogs after

/-- The comparison the extractor sorts by. -/
def rowLe (a b : Row) : Bool := strLe (sortKey a) (sortKey b)

/-- Characters an inner capture may consist of: anything the regex dot
matches except the close bracket. -/
def innerOk (i : Str) : Bool := i.all (fun c => c ≠ ']' && isDot c)

/-- The trimmed inner text of a marker holding the given entries in
order: entries suffixed with the delimiter and separated by spaces. -/
def chain : List Str → Str
  | [] => []
  | [t] => t ++ [';']
  | t :: ts => t ++ ';' :: ' ' :: chain ts

end TimeLogs

-- sanity checks (concrete evaluations of the embedding)
example : TimeLogs.splitLines "a\r\nb\rc\nd".data = ["a".data, "b\rc".data, "d".data] := by decide
example : TimeLogs.findMarker "- [x] t [time-logs:: 2025-01-01 -10:00; ]".data =
    some ("- [x] t ".data, " 2025-01-01 -10:00; ".data, []):= by decide
example : TimeLogs.findMarker "[time-logs::x".data = none := by decide
example : TimeLogs.entriesOfLine "a [time-logs:: x; y ; ; z]".data = ["x".data, "y".data, "z".data] := by decide

-- scenario 1 and 2 from the specification
example : TimeLogs.appendTimeLogToLine "- [ ] Write report".data "2025-08-28 -14:32".data =
    "- [ ] Write report [time-logs:: 2025-08-28 -14:32; ]".data := by decide
example : TimeLogs.appendTimeLogToLine "- [ ] Write report [time-logs:: 2025-08-28 -14:32; ]".data
      "2025-08-28 -15:00".data =
    "- [ ] Write report [time-logs::2025-08-28 -14:32; 2025-08-28 -15:00; ]".data := by decide
-- scenario 3: range entries
example : TimeLogs.parseFromTo "2025-08-28 09:00-10:30".data =
    ("2025-08-28 09:00:00".data, "2025-08-28 10:30:00".data) := by decide
example : TimeLogs.parseFromTo "2025-08-28 -14:32".data = ([], "2025-08-28 14:32:00".data) := by decide
example : TimeLogs.parseFromTo "2025-08-28 11:05-".data = ("2025-08-28 11:05:00".data, []) := by decide
example : TimeLogs.parseFromTo "2025-08-28 11:05:30".data = ([], "2025-08-28 11:05:30".data) := by decide
example : TimeLogs.parseFromTo "2025-13-40 -99:99".data = ([], "2025-13-40 99:99:00".data) := by decide
example : TimeLogs.parseFromTo "nodate 10:00".data = ([], []) := by decide
-- dataview insertion
example : TimeLogs.findDVIdx "- [x] t [due:: tomorrow]".data = some 8 := by decide
example : TimeLogs.appendTimeLogToLine "- [x] t [due:: tomorrow]".data "2025-01-01 -10:00".data =
    "- [x] t [time-logs:: 2025-01-01 -10:00; ] [due:: tomorrow]".data := by decide
-- scenario 4: auto-detection
example : TimeLogs.addTimeLogForDoneTasks "- [ ] Pay bills".data "- [x] Pay bills".data
      "2025-01-01 -10:00".data =
    "- [x] Pay bills [time-logs:: 2025-01-01 -10:00; ]".data := by decide
example : TimeLogs.isUncheckedTaskLine "  - [ ] a".data = true := by decide
example : TimeLogs.isCheckedTaskLine "- [ X  ] a".data = true := by decide
example : TimeLogs.isCheckedTaskLine "- [x x] a".data = false := by decide
-- extractor and CSV
example : TimeLogs.collectRowsRaw
      [("b.md".data, "- [x] T [time-logs:: 2025-01-02 10:00-11:00; ]".data),
       ("a.md".data, "- [x] U [time-logs:: 2025-01-01 09:00-; ]".data)] =
    [{ task := ['T'], fromS := "2025-01-02 10:00:00".data, toS := "2025-01-02 11:00:00".data,
       file := "b.md".data, line := 1 },
     { task := ['U'], fromS := "2025-01-01 09:00:00".data, toS := [], file := "a.md".data, line := 1 }] := by decide
example : TimeLogs.createCsvContent [] = "Task,From,To,File,Line".data := by decide
example : TimeLogs.createCsvContent
      [{ task := "a\"b".data, fromS := [], toS := [], file := "f,g".data, line := 12 }] =
    "Task,From,To,File,Line\n\"a\"\"b\",,,\"f,g\",12".data := by decide
example : TimeLogs.normalizeTaskText "- [ ] - [x] quoted".data = "quoted".data := by decide
example : TimeLogs.datePreOk "x 2025-01-01".data = true := by decide
example : TimeLogs.parseFromTo "x 2025-01-01".data = ([], []) := by decide

namespace TimeLogs

/-! ## Lemmas about the time-token scanner -/

lemma isTime5_ex {t : Str} (h : isTime5 t = true) :
    ∃ a b c d, t = a :: b :: ':' :: c :: d :: [] ∧
      a.isDigit = true ∧ b.isDigit = true ∧ c.isDigit = true ∧ d.isDigit = true := by
  unfold isTime5 at h
  split at h
  · rename_i a b c d
    simp only [Bool.and_eq_true] at h
    exact ⟨a, b, c, d, rfl, h.1.1.1, h.1.1.2, h.1.2, h.2⟩
  · exact absurd h (by simp)

lemma isTime8_ex {t : Str} (h : isTime8 t = true) :
    ∃ a b c d e f, t = a :: b :: ':' :: c :: d :: ':' :: e :: f :: [] ∧
      a.isDigit = true ∧ b.isDigit = true ∧ c.isDigit = true ∧ d.isDigit = true ∧
      e.isDigit = true ∧ f.isDigit = true := by
  unfold isTime8 at h
  split at h
  · rename_i a b c d e f
    simp only [Bool.and_eq_true] at h
    exact ⟨a, b, c, d, e, f, rfl, h.1.1.1.1.1, h.1.1.1.1.2, h.1.1.1.2, h.1.1.2, h.1.2, h.2⟩
  · exact absurd h (by simp)

lemma isTime5_length {t : Str} (h : isTime5 t = true) : t.length = 5 := by
  obtain ⟨a, b, c, d, rfl, -⟩ := isTime5_ex h; rfl

lemma isTime8_length {t : Str} (h : isTime8 t = true) : t.length = 8 := by
  obtain ⟨a, b, c, d, e, f, rfl, -⟩ := isTime8_ex h; rfl

lemma matchTime_sound {u t rest : Str} (h : matchTime u = some (t, rest)) :
    u = t ++ rest ∧ isTimeTok t = true ∧
      (isTime5 t = true →
        ∀ e f r2, rest = ':' :: e :: f :: r2 → (e.isDigit && f.isDigit) = false) := by
  unfold matchTime at h
  split at h
  · rename_i a b c d rest₀
    split at h
    · rename_i hdig
      simp only [Bool.and_eq_true] at hdig
      split at h
      · rename_i e f rest₂
        split at h
        · rename_i hef
          simp only [Option.some.injEq, Prod.mk.injEq] at h
          obtain ⟨rfl, rfl⟩ := h
          refine ⟨by simp, ?_, ?_⟩
          · simp only [isTimeTok, isTime8, Bool.or_eq_true]
            right
            simp [hdig.1.1.1, hdig.1.1.2, hdig.1.2, hdig.2, hef]
          · intro h5
            exact absurd (isTime5_length h5) (by simp)
        · rename_i hef
          simp only [Option.some.injEq, Prod.mk.injEq] at h
          obtain ⟨rfl, rfl⟩ := h
          refine ⟨by simp, ?_, ?_⟩
          · simp only [isTimeTok, isTime5, Bool.or_eq_true]
            left
            simp [hdig.1.1.1, hdig.1.1.2, hdig.1.2, hdig.2]
          · intro _ e' f' r2' heq
            obtain ⟨rfl, rfl, rfl⟩ : e = e' ∧ f = f' ∧ rest₂ = r2' := by
              simpa using heq
            simpa using hef
      · rename_i hnotcolon
        simp only [Option.some.injEq, Prod.mk.injEq] at h
        obtain ⟨rfl, rfl⟩ := h
        refine ⟨by simp, ?_, ?_⟩
        · simp only [isTimeTok, isTime5, Bool.or_eq_true]
          left
          simp [hdig.1.1.1, hdig.1.1.2, hdig.1.2, hdig.2]
        · intro _ e f r2 heq
          exact absurd heq (hnotcolon e f r2)
    · exact absurd h (by simp)
  · exact absurd h (by simp)

lemma matchTime_complete5 {t : Str} (h : isTime5 t = true) (rest : Str)
    (hr : rest.head? ≠ some ':') :
    matchTime (t ++ rest) = some (t, rest) := by
  obtain ⟨a, b, c, d, rfl, ha, hb, hc, hd⟩ := isTime5_ex h
  show matchTime (a :: b :: ':' :: c :: d :: rest) = _
  simp only [matchTime]
  rw [if_pos (by simp [ha, hb, hc, hd])]
  split
  · exact absurd rfl hr
  · rfl

lemma matchTime_complete8 {t : Str} (h : isTime8 t = true) (rest : Str) :
    matchTime (t ++ rest) = some (t, rest) := by
  obtain ⟨a, b, c, d, e, f, rfl, ha, hb, hc, hd, he, hf⟩ := isTime8_ex h
  show matchTime (a :: b :: ':' :: c :: d :: ':' :: e :: f :: rest) = _
  simp only [matchTime]
  rw [if_pos (by simp [ha, hb, hc, hd])]
  simp [he, hf]

lemma matchTime_of_tok {u : Str} (h : isTimeTok u = true) : matchTime u = some (u, []) := by
  rcases Bool.or_eq_true_iff.mp h with h5 | h8
  · simpa using matchTime_complete5 h5 [] (by simp)
  · simpa using matchTime_complete8 h8 []

lemma matchTime_complete_tok {t : Str} (h : isTimeTok t = true) (rest : Str)
    (hr : rest.head? ≠ some ':') :
    matchTime (t ++ rest) = some (t, rest) := by
  rcases Bool.or_eq_true_iff.mp h with h5 | h8
  · exact matchTime_complete5 h5 rest hr
  · exact matchTime_complete8 h8 rest

lemma getLast?_decomp {u : Str} {c : Char} (h : u.getLast? = some c) :
    u = u.dropLast ++ [c] := by
  induction u with
  | nil => simp at h
  | cons a u ih =>
    cases u with
    | nil => simp_all
    | cons b v =>
      rw [List.getLast?_cons_cons] at h
      have h2 := ih h
      calc a :: b :: v = a :: ((b :: v).dropLast ++ [c]) := by rw [← h2]
      _ = (a :: b :: v).dropLast ++ [c] := by simp

lemma tryToOnly_eq (rest : Str) :
    tryToOnly rest =
      if rest.head? = some '-' && isTimeTok rest.tail then some rest.tail else none := by
  unfold tryToOnly
  by_cases hh : rest.head? = some '-'
  · rw [if_pos hh]
    by_cases htok : isTimeTok rest.tail = true
    · rw [matchTime_of_tok htok]
      simp [hh, htok]
    · rw [if_neg (by simp [htok])]
      cases hm : matchTime rest.tail with
      | none => rfl
      | some p =>
        obtain ⟨t, r'⟩ := p
        obtain ⟨he, ht, -⟩ := matchTime_sound hm
        rcases r' with - | ⟨x, xs⟩
        · rw [List.append_nil] at he
          subst he
          exact absurd ht htok
        · simp
  · rw [if_neg hh, if_neg (by simp [hh])]

lemma tryFromOnly_eq (rest : Str) :
    tryFromOnly rest =
      if rest.getLast? = some '-' && isTimeTok rest.dropLast then some rest.dropLast
      else none := by
  have reconstruct : rest.getLast? = some '-' → isTimeTok rest.dropLast = true →
      matchTime rest = some (rest.dropLast, ['-']) := by
    intro h1 h2
    have hd := getLast?_decomp h1
    have hfull := matchTime_complete_tok h2 (['-'] : Str) (by simp)
    rw [← hd] at hfull
    exact hfull
  unfold tryFromOnly
  cases hm : matchTime rest with
  | none =>
    rw [if_neg]
    intro hc
    simp only [Bool.and_eq_true, decide_eq_true_eq] at hc
    rw [reconstruct hc.1 hc.2] at hm
    exact absurd hm (by simp)
  | some p =>
    obtain ⟨t, r'⟩ := p
    obtain ⟨he, htok, -⟩ := matchTime_sound hm
    dsimp only
    by_cases hr : r' = ['-']
    · subst hr
      subst he
      simp [List.getLast?_concat, List.dropLast_concat, htok]
    · rw [if_neg hr, if_neg]
      intro hc
      simp only [Bool.and_eq_true, decide_eq_true_eq] at hc
      rw [reconstruct hc.1 hc.2] at hm
      simp only [Option.some.injEq, Prod.mk.injEq] at hm
      exact absurd hm.2.symm hr

lemma trySingle_eq (rest : Str) :
    trySingle rest = if isTimeTok rest then some rest else none := by
  unfold trySingle
  by_cases h : isTimeTok rest = true
  · rw [matchTime_of_tok h]
    simp [h]
  · rw [if_neg h]
    cases hm : matchTime rest with
    | none => rfl
    | some p =>
      obtain ⟨t, r'⟩ := p
      obtain ⟨he, ht, -⟩ := matchTime_sound hm
      rcases r' with - | ⟨x, xs⟩
      · rw [List.append_nil] at he
        subst he
        exact absurd ht h
      · simp

lemma head?_decomp {u : Str} {c : Char} (h : u.head? = some c) : u = c :: u.tail := by
  cases u <;> simp_all

lemma tryRange_eq (rest : Str) :
    tryRange rest =
      if isTime5 (rest.take 5) && (rest.drop 5).head? = some '-' &&
          isTimeTok (rest.drop 5).tail then
        some (rest.take 5, (rest.drop 5).tail)
      else if isTime8 (rest.take 8) && (rest.drop 8).head? = some '-' &&
          isTimeTok (rest.drop 8).tail then
        some (rest.take 8, (rest.drop 8).tail)
      else none := by
  have recon5 : isTime5 (rest.take 5) = true → (rest.drop 5).head? = some '-' →
      matchTime rest = some (rest.take 5, rest.drop 5) := by
    intro h5 hh
    have hfull := matchTime_complete5 h5 (rest.drop 5) (by rw [hh]; simp)
    rwa [List.take_append_drop] at hfull
  have recon8 : isTime8 (rest.take 8) = true →
      matchTime rest = some (rest.take 8, rest.drop 8) := by
    intro h8
    have hfull := matchTime_complete8 h8 (rest.drop 8)
    rwa [List.take_append_drop] at hfull
  cases hm : matchTime rest with
  | none =>
    unfold tryRange
    rw [hm, if_neg, if_neg]
    · intro hcond
      simp only [Bool.and_eq_true, decide_eq_true_eq] at hcond
      rw [recon8 hcond.1.1] at hm
      exact absurd hm (by simp)
    · intro hcond
      simp only [Bool.and_eq_true, decide_eq_true_eq] at hcond
      rw [recon5 hcond.1.1 hcond.1.2] at hm
      exact absurd hm (by simp)
  | some p =>
    obtain ⟨t1, r⟩ := p
    obtain ⟨he, htok, hneg⟩ := matchTime_sound hm
    have lhs : tryRange rest =
        (if r.head? = some '-' then
          match matchTime r.tail with
          | some (t2, r2) => if r2 = [] then some (t1, t2) else none
          | none => none
        else none) := by
      unfold tryRange
      rw [hm]
    rw [lhs]
    clear lhs
    subst he
    rcases Bool.or_eq_true_iff.mp htok with h5 | h8
    · -- the scanned token is the short shape
      obtain ⟨a, b, c, d, rfl, ha, hb, hc, hd⟩ := isTime5_ex h5
      have htake5 : (([a, b, ':', c, d] : Str) ++ r).take 5 = [a, b, ':', c, d] := by simp
      have hdrop5 : (([a, b, ':', c, d] : Str) ++ r).drop 5 = r := by simp
      have htake8 : (([a, b, ':', c, d] : Str) ++ r).take 8 =
          a :: b :: ':' :: c :: d :: r.take 3 := by
        simp [List.take_append_eq_append_take]
      have h8f : isTime8 (a :: b :: ':' :: c :: d :: r.take 3) = false := by
        rw [Bool.eq_false_iff]
        intro h8x
        obtain ⟨p, q, u, v, w, x, heq, hp, hq, hu, hv, hw, hx⟩ := isTime8_ex h8x
        have hr3 : r.take 3 = ':' :: w :: x :: [] := by
          simp only [List.cons.injEq] at heq
          exact heq.2.2.2.2.2
        have hrdec : r = ':' :: w :: x :: r.drop 3 := by
          conv_lhs => rw [← List.take_append_drop 3 r]
          rw [hr3]
          rfl
        have := hneg h5 w x (r.drop 3) hrdec
        simp [hw, hx] at this
      rw [htake5, hdrop5, htake8, h8f]
      by_cases hh : r.head? = some '-'
      · rw [if_pos hh]
        cases hm2 : matchTime r.tail with
        | none =>
          have hnotok : isTimeTok r.tail = false := by
            rw [Bool.eq_false_iff]
            intro htk
            rw [matchTime_of_tok htk] at hm2
            exact absurd hm2 (by simp)
          rw [if_neg (by simp [hnotok])]
          rfl
        | some p2 =>
          obtain ⟨t2, r2⟩ := p2
          obtain ⟨he2, htok2, -⟩ := matchTime_sound hm2
          dsimp only
          by_cases hr2 : r2 = []
          · subst hr2
            rw [List.append_nil] at he2
            subst he2
            rw [if_pos rfl, if_pos (by simp [h5, hh, htok2])]
          · have hnotok : isTimeTok r.tail = false := by
              rw [Bool.eq_false_iff]
              intro htk
              rw [matchTime_of_tok htk] at hm2
              simp only [Option.some.injEq, Prod.mk.injEq] at hm2
              exact absurd hm2.2.symm hr2
            rw [if_neg hr2, if_neg (by simp [hnotok])]
            rfl
      · rw [if_neg hh, if_neg (by simp [hh])]
        rfl
    · -- the scanned token is the long shape
      obtain ⟨a, b, c, d, e, f, rfl, ha, hb, hc, hd, he', hf⟩ := isTime8_ex h8
      have hdrop5 :
          (([a, b, ':', c, d, ':', e, f] : Str) ++ r).drop 5 = ':' :: e :: f :: r := by
        simp
      have htake8 : (([a, b, ':', c, d, ':', e, f] : Str) ++ r).take 8 =
          [a, b, ':', c, d, ':', e, f] := by simp
      have hdrop8 : (([a, b, ':', c, d, ':', e, f] : Str) ++ r).drop 8 = r := by simp
      by_cases hh : r.head? = some '-'
      · rw [if_pos hh]
        rw [if_neg (by rw [hdrop5]; simp)]
        rw [htake8, hdrop8]
        cases hm2 : matchTime r.tail with
        | none =>
          have hnotok : isTimeTok r.tail = false := by
            rw [Bool.eq_false_iff]
            intro htk
            rw [matchTime_of_tok htk] at hm2
            exact absurd hm2 (by simp)
          rw [if_neg (by simp [hnotok])]
        | some p2 =>
          obtain ⟨t2, r2⟩ := p2
          obtain ⟨he2, htok2, -⟩ := matchTime_sound hm2
          dsimp only
          by_cases hr2 : r2 = []
          · subst hr2
            rw [List.append_nil] at he2
            subst he2
            rw [if_pos rfl, if_pos (by simp [h8, hh, htok2])]
          · have hnotok : isTimeTok r.tail = false := by
              rw [Bool.eq_false_iff]
              intro htk
              rw [matchTime_of_tok htk] at hm2
              simp only [Option.some.injEq, Prod.mk.injEq] at hm2
              exact absurd hm2.2.symm hr2
            rw [if_neg hr2, if_neg (by simp [hnotok])]
      · rw [if_neg hh]
        rw [if_neg (by rw [hdrop5]; simp)]
        rw [htake8, hdrop8]
        rw [if_neg (by simp [hh])]

lemma ensureSeconds_eq_pad {t : Str} (h : isTimeTok t = true) :
    ensureSeconds t = padSeconds t := by
  rcases Bool.or_eq_true_iff.mp h with h5 | h8
  · rw [ensureSeconds, padSeconds, if_pos (isTime5_length h5), if_pos h5]
  · have hl : t.length = 8 := isTime8_length h8
    have h5f : ¬ isTime5 t = true := by
      intro h5
      rw [isTime5_length h5] at hl
      simp at hl
    rw [ensureSeconds, padSeconds, if_neg (by rw [hl]; simp), if_neg h5f]

/-- C2: for every input string, the range parser returns both-empty when
no leading date token is present on the trimmed input; otherwise the
trimmed remainder is matched against the four shapes in priority order
(to-only, from-only, range, bare time treated as to-only), the first
match determines the result, each produced timestamp is the date, a
space, and the time with seconds defaulted when omitted, and no match
yields both-empty.  Stated as: the embedded parser coincides with the
parser written from the specification's words. -/
theorem c2_parser_spec_equiv (s : Str) : parseFromTo s = specParse s := by
  unfold parseFromTo specParse matchDate
  by_cases hd : dateShape ((trimS s).take 10) = true
  · rw [if_pos hd, if_pos hd]
    dsimp only
    rw [tryToOnly_eq, tryFromOnly_eq, tryRange_eq, trySingle_eq]
    generalize trimS ((trimS s).drop 10) = rest
    generalize (trimS s).take 10 = date
    by_cases c1 : (rest.head? = some '-' && isTimeTok rest.tail) = true
    · rw [if_pos c1, if_pos c1]
      dsimp only
      rw [ensureSeconds_eq_pad ((Bool.and_eq_true _ _).mp c1).2]
    · rw [if_neg c1, if_neg c1]
      dsimp only
      by_cases c2 : (rest.getLast? = some '-' && isTimeTok rest.dropLast) = true
      · rw [if_pos c2, if_pos c2]
        dsimp only
        rw [ensureSeconds_eq_pad ((Bool.and_eq_true _ _).mp c2).2]
      · rw [if_neg c2, if_neg c2]
        dsimp only
        by_cases c3 : (isTime5 (rest.take 5) && (rest.drop 5).head? = some '-' &&
            isTimeTok (rest.drop 5).tail) = true
        · rw [if_pos c3, if_pos c3]
          dsimp only
          obtain ⟨⟨h5, -⟩, htl⟩ :
              (isTime5 (rest.take 5) = true ∧ _) ∧ isTimeTok (rest.drop 5).tail = true := by
            simpa using c3
          rw [ensureSeconds_eq_pad (by simp [isTimeTok, h5]), ensureSeconds_eq_pad htl]
        · rw [if_neg c3, if_neg c3]
          by_cases c4 : (isTime8 (rest.take 8) && (rest.drop 8).head? = some '-' &&
              isTimeTok (rest.drop 8).tail) = true
          · rw [if_pos c4, if_pos c4]
            dsimp only
            obtain ⟨⟨h8, -⟩, htl⟩ :
                (isTime8 (rest.take 8) = true ∧ _) ∧ isTimeTok (rest.drop 8).tail = true := by
              simpa using c4
            rw [ensureSeconds_eq_pad (by simp [isTimeTok, h8]), ensureSeconds_eq_pad htl]
          · rw [if_neg c4, if_neg c4]
            dsimp only
            by_cases c5 : isTimeTok rest = true
            · rw [if_pos c5, if_pos c5]
              dsimp only
              rw [ensureSeconds_eq_pad c5]
            · rw [if_neg c5, if_neg c5]
  · rw [if_neg hd, if_neg hd]

lemma dateShape_ex {d : Str} (h : dateShape d = true) :
    ∃ a b c d1 e f g h1, d = [a, b, c, d1, '-', e, f, '-', g, h1] ∧
      a.isDigit = true ∧ b.isDigit = true ∧ c.isDigit = true ∧ d1.isDigit = true ∧
      e.isDigit = true ∧ f.isDigit = true ∧ g.isDigit = true ∧ h1.isDigit = true := by
  unfold dateShape at h
  split at h
  · rename_i a b c d1 e f g h1
    simp only [Bool.and_eq_true] at h
    exact ⟨a, b, c, d1, e, f, g, h1, rfl, h.1.1.1.1.1.1.1, h.1.1.1.1.1.1.2, h.1.1.1.1.1.2,
      h.1.1.1.1.2, h.1.1.1.2, h.1.1.2, h.1.2, h.2⟩
  · exact absurd h (by simp)

lemma ensure_time8 {t : Str} (h : isTimeTok t = true) :
    isTime8 (ensureSeconds t) = true := by
  rcases Bool.or_eq_true_iff.mp h with h5 | h8
  · obtain ⟨a, b, c, d, rfl, ha, hb, hc, hd⟩ := isTime5_ex h5
    rw [ensureSeconds, if_pos (show ([a, b, ':', c, d] : Str).length = 5 from rfl)]
    show isTime8 [a, b, ':', c, d, ':', '0', '0'] = true
    simp [isTime8, ha, hb, hc, hd]
  · rw [ensureSeconds, if_neg (by rw [isTime8_length h8]; simp)]
    exact h8

lemma wf_build {d u : Str} (hd : dateShape d = true) (hu : isTime8 u = true) :
    isWfTimestamp (d ++ ' ' :: u) = true := by
  obtain ⟨a, b, c, d1, e, f, g, h1, rfl, ha, hb, hc, hd1, he, hf, hg, hh1⟩ := dateShape_ex hd
  obtain ⟨p, q, u1, v, w, x, rfl, hp, hq, hu1, hv, hw, hx⟩ := isTime8_ex hu
  show isWfTimestamp
    [a, b, c, d1, '-', e, f, '-', g, h1, ' ', p, q, ':', u1, v, ':', w, x] = true
  simp [isWfTimestamp, ha, hb, hc, hd1, he, hf, hg, hh1, hp, hq, hu1, hv, hw, hx]

/-- C8: the range parser is total (it is a total function of the input
string) and for every input it returns either two empty strings or a
result in which every non-empty field is a well-formed fixed-width
nineteen-character timestamp with seconds present. -/
theorem c8_parser_totality (s : Str) :
    ((parseFromTo s).1 = [] ∨ isWfTimestamp (parseFromTo s).1 = true) ∧
      ((parseFromTo s).2 = [] ∨ isWfTimestamp (parseFromTo s).2 = true) := by
  unfold parseFromTo matchDate
  by_cases hd : dateShape ((trimS s).take 10) = true
  · rw [if_pos hd]
    dsimp only
    rw [tryToOnly_eq, tryFromOnly_eq, tryRange_eq, trySingle_eq]
    generalize hres : trimS ((trimS s).drop 10) = rest
    by_cases c1 : (rest.head? = some '-' && isTimeTok rest.tail) = true
    · rw [if_pos c1]
      exact ⟨Or.inl rfl,
        Or.inr (wf_build hd (ensure_time8 ((Bool.and_eq_true _ _).mp c1).2))⟩
    · rw [if_neg c1]
      dsimp only
      by_cases c2 : (rest.getLast? = some '-' && isTimeTok rest.dropLast) = true
      · rw [if_pos c2]
        exact ⟨Or.inr (wf_build hd (ensure_time8 ((Bool.and_eq_true _ _).mp c2).2)),
          Or.inl rfl⟩
      · rw [if_neg c2]
        dsimp only
        by_cases c3 : (isTime5 (rest.take 5) && (rest.drop 5).head? = some '-' &&
            isTimeTok (rest.drop 5).tail) = true
        · rw [if_pos c3]
          obtain ⟨⟨h5, -⟩, htl⟩ :
              (isTime5 (rest.take 5) = true ∧ _) ∧ isTimeTok (rest.drop 5).tail = true := by
            simpa using c3
          exact ⟨Or.inr (wf_build hd (ensure_time8 (by simp [isTimeTok, h5]))),
            Or.inr (wf_build hd (ensure_time8 htl))⟩
        · rw [if_neg c3]
          by_cases c4 : (isTime8 (rest.take 8) && (rest.drop 8).head? = some '-' &&
              isTimeTok (rest.drop 8).tail) = true
          · rw [if_pos c4]
            obtain ⟨⟨h8, -⟩, htl⟩ :
                (isTime8 (rest.take 8) = true ∧ _) ∧ isTimeTok (rest.drop 8).tail = true := by
              simpa using c4
            exact ⟨Or.inr (wf_build hd (ensure_time8 (by simp [isTimeTok, h8]))),
              Or.inr (wf_build hd (ensure_time8 htl))⟩
          · rw [if_neg c4]
            dsimp only
            by_cases c5 : isTimeTok rest = true
            · rw [if_pos c5]
              exact ⟨Or.inl rfl, Or.inr (wf_build hd (ensure_time8 c5))⟩
            · rw [if_neg c5]
              exact ⟨Or.inl rfl, Or.inl rfl⟩
  · rw [if_neg hd]
    exact ⟨Or.inl rfl, Or.inl rfl⟩

lemma flatMap_doubling (v : Str) :
    v.flatMap (fun c => if c = '"' then ['"', '"'] else [c]) = doubling v := by
  induction v with
  | nil => rfl
  | cons c cs ih =>
    rw [List.flatMap_cons, ih]
    rfl

lemma doubling_id {v : Str} (h : ∀ c ∈ v, c ≠ '"') : doubling v = v := by
  induction v with
  | nil => rfl
  | cons c cs ih =>
    show (if c = '"' then ['"', '"'] else [c]) ++ doubling cs = c :: cs
    rw [if_neg (h c (by simp)), ih (fun x hx => h x (by simp [hx]))]
    rfl

lemma csvEscape_eq_spec (v : Str) : csvEscape v = csvEscapeSpec v := by
  unfold csvEscape csvEscapeSpec
  have hany : (v.any fun c => c = '"' || c = ',' || c = '\n') =
      (v.any fun c => c = ',' || c = '"' || c = '\n') := by
    induction v with
    | nil => rfl
    | cons c cs ih =>
      simp only [List.any_cons, ih]
      by_cases h1 : c = '"' <;> by_cases h2 : c = ',' <;> simp [h1, h2]
  rw [hany, flatMap_doubling]
  by_cases h : (v.any fun c => c = ',' || c = '"' || c = '\n') = true
  · rw [if_pos h, if_pos h]
  · rw [if_neg h, if_neg h]
    apply doubling_id
    intro c hc hq
    apply h
    rw [List.any_eq_true]
    exact ⟨c, hc, by simp [hq]⟩

/-- C9: for every row table (including the empty one), the CSV encoding
begins with the header row with columns in the exact order Task, From,
To, File, Line, and each field is wrapped in double quotes exactly when
it contains a comma, double quote, or newline, with every embedded
double quote doubled and all other fields emitted unescaped.  Stated as:
the embedded encoder coincides with the encoder written from the
specification's words. -/
theorem c9_csv (rows : List Row) : createCsvContent rows = csvSpec rows := by
  have hesc : csvEscape = csvEscapeSpec := funext csvEscape_eq_spec
  unfold createCsvContent csvSpec
  rw [List.map_cons, hesc]
  have hhead : joinComma (headerCells.map csvEscapeSpec) = headerStr := by decide
  rw [hhead, List.map_map]
  rfl

/-! ## Lemmas for the extractor ordering -/

lemma strLe_refl (x : Str) : strLe x x = true := by
  induction x with
  | nil => rfl
  | cons a as ih => simp [strLe, ih]

lemma strLe_total (x y : Str) : (strLe x y || strLe y x) = true := by
  induction x generalizing y with
  | nil => simp [strLe]
  | cons a as ih =>
    cases y with
    | nil => simp [strLe]
    | cons b bs =>
      simp only [strLe]
      rcases lt_trichotomy a b with h | h | h
      · simp [h]
      · subst h
        simpa [lt_irrefl] using ih bs
      · simp [h]

lemma strLe_trans {x y z : Str} (h1 : strLe x y = true) (h2 : strLe y z = true) :
    strLe x z = true := by
  induction x generalizing y z with
  | nil => simp [strLe]
  | cons a as ih =>
    cases y with
    | nil => simp [strLe] at h1
    | cons b bs =>
      cases z with
      | nil => simp [strLe] at h2
      | cons c cs =>
        simp only [strLe, Bool.or_eq_true, Bool.and_eq_true, decide_eq_true_eq] at h1 h2 ⊢
        rcases h1 with h1 | ⟨rfl, h1⟩
        · rcases h2 with h2 | ⟨rfl, h2⟩
          · exact Or.inl (lt_trans h1 h2)
          · exact Or.inl h1
        · rcases h2 with h2 | ⟨rfl, h2⟩
          · exact Or.inl h2
          · exact Or.inr ⟨rfl, ih h1 h2⟩

lemma rowLe_trans : ∀ a b c : Row, rowLe a b = true → rowLe b c = true → rowLe a c = true :=
  fun _ _ _ h1 h2 => strLe_trans h1 h2

lemma rowLe_total : ∀ a b : Row, (rowLe a b || rowLe b a) = true :=
  fun _ _ => strLe_total _ _

lemma mergeSort_pair {α : Type} (le : α → α → Bool) (a b : α) :
    [a, b].mergeSort le = if le a b then [a, b] else [b, a] := by
  rw [List.mergeSort]
  simp [List.splitInTwo, List.mergeSort, List.merge]

lemma sort_filter_key (rows : List Row) (k : Str) :
    (rows.mergeSort rowLe).filter (fun r => sortKey r = k) =
      rows.filter (fun r => sortKey r = k) := by
  have hall : ∀ a ∈ rows.filter (fun r => sortKey r = k), sortKey a = k := by
    intro a ha
    simpa using (List.mem_filter.mp ha).2
  have hpw : (rows.filter (fun r => sortKey r = k)).Pairwise (fun a b => rowLe a b = true) := by
    apply List.pairwise_of_forall_mem_list
    intro a ha b hb
    rw [rowLe, hall a ha, hall b hb]
    exact strLe_refl k
  have hsub : (rows.filter (fun r => sortKey r = k)).Sublist (rows.mergeSort rowLe) :=
    List.sublist_mergeSort rowLe_trans rowLe_total hpw (List.filter_sublist rows)
  have hsub2 : (rows.filter (fun r => sortKey r = k)).Sublist
      ((rows.mergeSort rowLe).filter (fun r => sortKey r = k)) := by
    have := List.Sublist.filter (fun r => sortKey r = k) hsub
    rwa [List.filter_eq_self.mpr (by intro a ha; simpa using hall a ha)] at this
  have hlen : ((rows.mergeSort rowLe).filter (fun r => sortKey r = k)).length =
      (rows.filter (fun r => sortKey r = k)).length :=
    ((List.mergeSort_perm rows rowLe).filter _).length_eq
  exact (List.Sublist.eq_of_length hsub2 hlen.symm).symm

/-- C5: for every document corpus, the extractor's output rows are
sorted ascending by the key (the from field if non-empty, else the to
field if non-empty, else the empty string) under plain lexicographic
string comparison, rows with equal keys keep their discovery order
(document order, then line order, then entry order, captured as the
filter of the raw discovery-ordered row list at each key), and in the
concrete instance a row with key 2025-01-01 09:00:00 from a later
document precedes a row with key 2025-01-02 10:00:00 from an earlier
document. -/
theorem c5_extractor_order :
    (∀ docs : List (Str × Str),
      (collectTimeLogRows docs).Pairwise (fun a b => strLe (sortKey a) (sortKey b) = true)) ∧
    (∀ (docs : List (Str × Str)) (k : Str),
      (collectTimeLogRows docs).filter (fun r => sortKey r = k) =
        (collectRowsRaw docs).filter (fun r => sortKey r = k)) ∧
    collectTimeLogRows
        [("b.md".data, "- [x] T [time-logs:: 2025-01-02 10:00-11:00; ]".data),
         ("a.md".data, "- [x] U [time-logs:: 2025-01-01 09:00-; ]".data)] =
      [{ task := ['U'], fromS := "2025-01-01 09:00:00".data, toS := [],
         file := "a.md".data, line := 1 },
       { task := ['T'], fromS := "2025-01-02 10:00:00".data,
         toS := "2025-01-02 11:00:00".data, file := "b.md".data, line := 1 }] := by
  refine ⟨fun docs => ?_, fun docs k => ?_, ?_⟩
  · exact List.sorted_mergeSort rowLe_trans rowLe_total _
  · exact sort_filter_key _ k
  · show List.mergeSort _ rowLe = _
    have hraw : collectRowsRaw
        [("b.md".data, "- [x] T [time-logs:: 2025-01-02 10:00-11:00; ]".data),
         ("a.md".data, "- [x] U [time-logs:: 2025-01-01 09:00-; ]".data)] =
      [{ task := ['T'], fromS := "2025-01-02 10:00:00".data,
         toS := "2025-01-02 11:00:00".data, file := "b.md".data, line := 1 },
       { task := ['U'], fromS := "2025-01-01 09:00:00".data, toS := [],
         file := "a.md".data, line := 1 }] := by decide
    rw [hraw, mergeSort_pair]
    rw [if_neg (by decide)]

lemma filterMap_if_map {α β γ : Type} (l : List α) (p : α → Bool) (g : α → β) (f : β → γ) :
    (l.filterMap (fun e => if p e then some (g e) else none)).map f =
      (l.filter p).map (f ∘ g) := by
  induction l with
  | nil => rfl
  | cons a l ih =>
    by_cases h : p a = true <;> simp [List.filterMap_cons, List.filter_cons, h, ih]

lemma entriesOfInner_of_empty {inner : Str} (h : (trimS inner).isEmpty = true) :
    entriesOfInner inner = [] := by
  unfold entriesOfInner
  rw [List.isEmpty_iff.mp h]
  rfl

/-- C1 counterexample: an entry that passes the date pre-filter but for
which the range parser returns both-empty is NOT dropped: the extractor
emits a row with both fields empty for it. -/
theorem c1_counterexample :
    datePreOk "x 2025-01-01".data = true ∧
    parseFromTo "x 2025-01-01".data = ([], []) ∧
    collectTimeLogRows [("a.md".data, "- [ ] t [time-logs:: x 2025-01-01; ]".data)] =
      [{ task := ['t'], fromS := [], toS := [], file := "a.md".data, line := 1 }] := by
  refine ⟨by decide, by decide, ?_⟩
  show List.mergeSort _ rowLe = _
  have hraw : collectRowsRaw [("a.md".data, "- [ ] t [time-logs:: x 2025-01-01; ]".data)] =
      [{ task := ['t'], fromS := [], toS := [], file := "a.md".data, line := 1 }] := by
    decide
  rw [hraw, List.mergeSort_singleton]

/-- C1 amended: a row is emitted for every entry that passes the date
pre-filter, regardless of the parser's result (entries whose parse
returns both-empty yield rows with two empty fields); each row's from
and to fields are exactly the range parser's output for its entry. -/
theorem c1_amended_rows_follow_ranges (path : Str) (idx : Nat) (line : Str) :
    (rowsOfLine path idx line).map (fun r => (r.fromS, r.toS)) =
      ((entriesOfLine line).filter datePreOk).map parseFromTo := by
  unfold rowsOfLine entriesOfLine
  cases hm : findMarker line with
  | none => rfl
  | some p =>
    obtain ⟨pre, q⟩ := p
    obtain ⟨inner, post⟩ := q
    dsimp only
    by_cases hin : (trimS inner).isEmpty = true
    · rw [if_pos hin, entriesOfInner_of_empty hin]
      rfl
    · rw [if_neg hin]
      rw [filterMap_if_map]
      apply List.map_congr_left
      intro e he
      show ((parseFromTo e).1, (parseFromTo e).2) = parseFromTo e
      rfl

/-- C6 counterexample: the task label is not produced by stripping at
most one leading checkbox prefix: on a line whose text after the marker
starts with an unchecked box followed by a checked box, both prefixes
are stripped, so the label is not kept verbatim after a single strip. -/
theorem c6_counterexample :
    (collectTimeLogRows
        [("a.md".data, "- [ ] - [x] quoted [time-logs:: 2025-01-01 -10:00; ]".data)]).map
      Row.task = ["quoted".data] ∧
    ("quoted".data : Str) ≠ "- [x] quoted".data := by
  constructor
  · show (List.mergeSort _ rowLe).map _ = _
    have hraw : collectRowsRaw
        [("a.md".data, "- [ ] - [x] quoted [time-logs:: 2025-01-01 -10:00; ]".data)] =
        [{ task := "quoted".data, fromS := [], toS := "2025-01-01 10:00:00".data,
           file := "a.md".data, line := 1 }] := by
      decide
    rw [hraw, List.mergeSort_singleton]
    rfl
  · decide

/-- C6 amended: every row extracted from a line carries as task label
the line with the marker substring removed, trimmed, with one leading
unchecked checkbox prefix stripped if present (trimming again), and
then one leading checked checkbox prefix stripped from the result if
present (trimming again) — so an unchecked prefix followed by a checked
prefix is stripped twice, while any other text after the stripping is
kept verbatim. -/
theorem c6_amended_task_label (path : Str) (idx : Nat) (line : Str) (r : Row)
    (h : r ∈ rowsOfLine path idx line) :
    ∃ pre inner post, findMarker line = some (pre, inner, post) ∧
      r.task = normalizeTaskText (trimS (pre ++ post)) := by
  unfold rowsOfLine at h
  cases hm : findMarker line with
  | none =>
    rw [hm] at h
    exact absurd h (by simp)
  | some p =>
    obtain ⟨pre, q⟩ := p
    obtain ⟨inner, post⟩ := q
    rw [hm] at h
    dsimp only at h
    by_cases hin : (trimS inner).isEmpty = true
    · rw [if_pos hin] at h
      exact absurd h (by simp)
    · rw [if_neg hin] at h
      obtain ⟨e, -, he⟩ := List.mem_filterMap.mp h
      refine ⟨pre, inner, post, rfl, ?_⟩
      by_cases hd : datePreOk e = true
      · rw [if_pos hd] at he
        obtain rfl := Option.some.inj he
        rfl
      · rw [if_neg hd] at he
        exact absurd he (by simp)

theorem c6_amended_task_label_witness :
    ∃ pre inner post,
      findMarker "- [ ] - [x] quoted [time-logs:: 2025-01-01 -10:00; ]".data =
        some (pre, inner, post) ∧
      ({ task := "quoted".data, fromS := [], toS := "2025-01-01 10:00:00".data,
         file := "a.md".data, line := 1 } : Row).task =
        normalizeTaskText (trimS (pre ++ post)) :=
  c6_amended_task_label "a.md".data 0
    "- [ ] - [x] quoted [time-logs:: 2025-01-01 -10:00; ]".data
    { task := "quoted".data, fromS := [], toS := "2025-01-01 10:00:00".data,
      file := "a.md".data, line := 1 }
    (by decide)

/-! ## Lemmas for the mutator placement -/

lemma sepEnd_iff (s : Str) :
    ((s.length > 0 && !endsWS s) = true) ↔ (∃ c, s.getLast? = some c ∧ isWS c = false) := by
  unfold endsWS
  cases h : s.getLast? with
  | none =>
    have : s = [] := List.getLast?_eq_none_iff.mp h
    subst this
    simp
  | some c =>
    have hne : s ≠ [] := by
      intro he
      subst he
      simp at h
    have hlen : s.length > 0 := List.length_pos.mpr hne
    simp [hlen, Bool.not_eq_true']

lemma sepStart_iff (s : Str) :
    ((s.length > 0 && !startsWS s) = true) ↔ (∃ c, s.head? = some c ∧ isWS c = false) := by
  unfold startsWS
  cases s with
  | nil => simp
  | cons a l => simp [Bool.not_eq_true']

lemma findDVIdx_sound {s : Str} {idx : Nat} (h : findDVIdx s = some idx) :
    (s.drop idx).head? = some '[' := by
  induction s generalizing idx with
  | nil => simp [findDVIdx] at h
  | cons c cs ih =>
    unfold findDVIdx at h
    split at h
    · rename_i hc
      obtain rfl : idx = 0 := by simpa using h.symm
      obtain ⟨h1, -⟩ := Bool.and_eq_true_iff.mp hc
      simp only [List.drop_zero, List.head?_cons]
      rw [decide_eq_true_eq] at h1
      rw [h1]
    · cases hn : findDVIdx cs with
      | none =>
        rw [hn] at h
        exact absurd h (by simp)
      | some n =>
        rw [hn] at h
        obtain rfl : idx = n + 1 := by simpa using h.symm
        exact ih hn

/-- C7: for every line with no marker but with an inline metadata token
at index idx, the mutator inserts the new marker strictly before the
token's start offset: the result is the text before the token, an
optional single space, the new marker, an optional single space, and
the token's text onward, all verbatim; each space is present exactly
when the adjoining character on that side exists and is not whitespace
(so no padding at true line start or end), and the token start is an
open bracket. -/
theorem c7_insertion (line t : Str) (idx : Nat)
    (h1 : findMarker line = none) (h2 : findDVIdx line = some idx) :
    ∃ sepB sepA : Str,
      appendTimeLogToLine line t =
        line.take idx ++ sepB ++ timeLogEntry t ++ sepA ++ line.drop idx ∧
      (sepB = [' '] ∨ sepB = []) ∧
      (sepB = [' '] ↔ ∃ c, (line.take idx).getLast? = some c ∧ isWS c = false) ∧
      (sepA = [' '] ∨ sepA = []) ∧
      (sepA = [' '] ↔ ∃ c, (line.drop idx).head? = some c ∧ isWS c = false) ∧
      (line.drop idx).head? = some '[' := by
  have hres : appendTimeLogToLine line t = insertBeforeInlineDataview line (timeLogEntry t) := by
    unfold appendTimeLogToLine
    rw [h1, h2]
  have hins : insertBeforeInlineDataview line (timeLogEntry t) =
      line.take idx ++
        (if (line.take idx).length > 0 && !endsWS (line.take idx) then [' '] else []) ++
        timeLogEntry t ++
        (if (line.drop idx).length > 0 && !startsWS (line.drop idx) then [' '] else []) ++
        line.drop idx := by
    unfold insertBeforeInlineDataview
    rw [h2]
  refine ⟨_, _, hres.trans hins, ?_, ?_, ?_, ?_, findDVIdx_sound h2⟩
  · by_cases hc : ((line.take idx).length > 0 && !endsWS (line.take idx)) = true
    · rw [if_pos hc]
      exact Or.inl rfl
    · rw [if_neg hc]
      exact Or.inr rfl
  · by_cases hc : ((line.take idx).length > 0 && !endsWS (line.take idx)) = true
    · rw [if_pos hc]
      simp only [true_iff, iff_true_intro rfl]
      exact (sepEnd_iff _).mp hc
    · rw [if_neg hc]
      constructor
      · intro he
        exact absurd he (by simp)
      · intro hex
        exact absurd ((sepEnd_iff _).mpr hex) hc
  · by_cases hc : ((line.drop idx).length > 0 && !startsWS (line.drop idx)) = true
    · rw [if_pos hc]
      exact Or.inl rfl
    · rw [if_neg hc]
      exact Or.inr rfl
  · by_cases hc : ((line.drop idx).length > 0 && !startsWS (line.drop idx)) = true
    · rw [if_pos hc]
      simp only [true_iff, iff_true_intro rfl]
      exact (sepStart_iff _).mp hc
    · rw [if_neg hc]
      constructor
      · intro he
        exact absurd he (by simp)
      · intro hex
        exact absurd ((sepStart_iff _).mpr hex) hc

theorem c7_insertion_witness :
    ∃ sepB sepA : Str,
      appendTimeLogToLine "task [due:: x]".data "2025-01-01 -10:00".data =
        ("task [due:: x]".data.take 5) ++ sepB ++ timeLogEntry "2025-01-01 -10:00".data ++
          sepA ++ ("task [due:: x]".data.drop 5) ∧
      (sepB = [' '] ∨ sepB = []) ∧
      (sepB = [' '] ↔ ∃ c, ("task [due:: x]".data.take 5).getLast? = some c ∧ isWS c = false) ∧
      (sepA = [' '] ∨ sepA = []) ∧
      (sepA = [' '] ↔ ∃ c, ("task [due:: x]".data.drop 5).head? = some c ∧ isWS c = false) ∧
      ("task [due:: x]".data.drop 5).head? = some '[' :=
  c7_insertion "task [due:: x]".data "2025-01-01 -10:00".data 5 (by decide) (by decide)

/-! ## Prefix algebra for the open token -/

lemma isPrefixOf_append_right {p : Str} (x y z : Str) (h : p.length ≤ x.length) :
    p.isPrefixOf (x ++ y) = p.isPrefixOf (x ++ z) := by
  induction p generalizing x with
  | nil => simp [List.isPrefixOf]
  | cons a p ih =>
    cases x with
    | nil => simp at h
    | cons b x' =>
      show (a == b && p.isPrefixOf (x' ++ y)) = (a == b && p.isPrefixOf (x' ++ z))
      rw [ih x' (by simpa using h)]

lemma isPrefixOf_of_append {p x y : Str} (h : p.isPrefixOf (x ++ y) = true)
    (hl : p.length ≤ x.length) : p.isPrefixOf x = true := by
  have heq := @isPrefixOf_append_right p x y [] hl
  rw [List.append_nil] at heq
  rw [← heq]
  exact h

lemma isPrefixOf_self_append (l r : Str) : l.isPrefixOf (l ++ r) = true := by
  induction l with
  | nil => simp [List.isPrefixOf]
  | cons a l ih =>
    show (a == a && l.isPrefixOf (l ++ r)) = true
    simp [ih]

lemma isPrefixOf_mono {p a b : Str} (h : p.isPrefixOf a = true) (hab : a <+: b) :
    p.isPrefixOf b = true :=
  List.isPrefixOf_iff_prefix.mpr ((List.isPrefixOf_iff_prefix.mp h).trans hab)

lemma open_no_border : ∀ k, k < 12 → 1 ≤ k → ((OPEN.drop k).isPrefixOf OPEN) = false := by
  decide

lemma open_prefix_align {u w : Str} (hpre : OPEN.isPrefixOf (u ++ (OPEN ++ w)) = true)
    (hu : u ≠ []) : OPEN.isPrefixOf u = true := by
  by_cases hl : OPEN.length ≤ u.length
  · exact isPrefixOf_of_append hpre hl
  · exfalso
    push_neg at hl
    obtain ⟨tail, htail⟩ := List.isPrefixOf_iff_prefix.mp hpre
    have hu1 : 1 ≤ u.length := List.length_pos.mpr hu
    have htake : u = OPEN.take u.length := by
      have h1 : (OPEN ++ tail).take u.length = OPEN.take u.length :=
        List.take_append_of_le_length (le_of_lt hl)
      rw [htail] at h1
      rw [List.take_left] at h1
      exact h1
    have hdrop : OPEN.drop u.length ++ tail = OPEN ++ w := by
      have h1 : (OPEN ++ tail).drop u.length = OPEN.drop u.length ++ tail :=
        List.drop_append_of_le_length (le_of_lt hl)
      rw [htail] at h1
      rw [List.drop_left] at h1
      exact h1.symm
    have hpd : (OPEN.drop u.length).isPrefixOf OPEN = true := by
      apply @isPrefixOf_of_append _ _ w
      · exact List.isPrefixOf_iff_prefix.mpr ⟨tail, hdrop⟩
      · simp only [List.length_drop]
        omega
    have := open_no_border u.length hl hu1
    rw [hpd] at this
    exact absurd this (by simp)

/-! ## Locating the marker -/

lemma hasOpen_of_prefix {a b : Str} (hab : a <+: b) (h : hasOpen b = false) :
    hasOpen a = false := by
  induction b generalizing a with
  | nil =>
    obtain rfl : a = [] := List.prefix_nil.mp hab
    rfl
  | cons c cs ih =>
    cases a with
    | nil => rfl
    | cons d ds =>
      obtain ⟨rfl, hds⟩ : d = c ∧ ds <+: cs := by
        simpa [List.cons_prefix_cons] using hab
      unfold hasOpen at h ⊢
      simp only [Bool.or_eq_false_iff] at h ⊢
      constructor
      · rw [Bool.eq_false_iff]
        intro hp
        have hmono := isPrefixOf_mono hp (List.cons_prefix_cons.mpr ⟨rfl, hds⟩)
        rw [hmono] at h
        simpa using h.1
      · exact ih hds h.2

lemma hasOpen_append_space {w : Str} (h : hasOpen w = false) :
    hasOpen (w ++ [' ']) = false := by
  induction w with
  | nil => decide
  | cons c cs ih =>
    unfold hasOpen at h
    rw [Bool.or_eq_false_iff] at h
    show hasOpen (c :: (cs ++ [' '])) = false
    unfold hasOpen
    rw [Bool.or_eq_false_iff]
    refine ⟨?_, ih h.2⟩
    rw [Bool.eq_false_iff]
    intro hp
    by_cases hl : OPEN.length ≤ (c :: cs).length
    · have hpc := @isPrefixOf_of_append _ (c :: cs) [' '] hp hl
      rw [hpc] at h
      simpa using h.1
    · push_neg at hl
      have hlen2 : (c :: cs ++ [' ']).length ≤ OPEN.length := by
        have ho : OPEN.length = 12 := rfl
        rw [ho] at hl ⊢
        simp only [List.length_append, List.length_cons, List.length_nil]
        simp only [List.length_cons] at hl
        omega
      have hpfx : OPEN <+: (c :: cs ++ [' ']) := List.isPrefixOf_iff_prefix.mp hp
      have heq : OPEN = c :: cs ++ [' '] :=
        hpfx.eq_of_length (Nat.le_antisymm hpfx.length_le hlen2)
      have hlast := congrArg List.getLast? heq
      rw [List.getLast?_concat] at hlast
      exact absurd hlast (by decide)

lemma findMarker_none_of_noOpen {w : Str} (h : hasOpen w = false) :
    findMarker w = none := by
  induction w with
  | nil => rfl
  | cons c cs ih =>
    unfold hasOpen at h
    simp only [Bool.or_eq_false_iff] at h
    unfold findMarker
    rw [h.1]
    simp only [Bool.false_eq_true, if_false]
    rw [ih h.2]

lemma grabInner_append {i : Str} (hok : innerOk i = true) (post : Str) :
    grabInner (i ++ ']' :: post) = some (i, post) := by
  induction i with
  | nil => simp [grabInner]
  | cons c cs ih =>
    simp only [innerOk, List.all_cons, Bool.and_eq_true, decide_eq_true_eq] at hok
    obtain ⟨⟨hc, hdot⟩, hcs⟩ := hok
    show grabInner (c :: (cs ++ ']' :: post)) = _
    unfold grabInner
    rw [if_neg hc, if_pos hdot, ih hcs]
    rfl

lemma findMarker_at {pre : Str} (i post : Str) (hpre : hasOpen pre = false)
    (hok : innerOk i = true) :
    findMarker (pre ++ OPEN ++ i ++ ']' :: post) = some (pre, i, post) := by
  induction pre with
  | nil =>
    have h1 : OPEN.isPrefixOf (OPEN ++ i ++ ']' :: post) = true := by
      rw [List.append_assoc]
      exact isPrefixOf_self_append _ _
    have h2 : (OPEN ++ i ++ ']' :: post).drop OPEN.length = i ++ ']' :: post := by
      rw [List.append_assoc, List.drop_left]
    rw [List.nil_append]
    rw [findMarker.eq_def]
    split
    · rename_i heq
      exact absurd (congrArg List.length heq) (by simp [OPEN])
    · rename_i c cs heq
      rw [← heq, h1]
      simp only [if_true]
      rw [h2, grabInner_append hok]
  | cons c cs ih =>
    unfold hasOpen at hpre
    simp only [Bool.or_eq_false_iff] at hpre
    have hnp : OPEN.isPrefixOf (c :: cs ++ OPEN ++ i ++ ']' :: post) = false := by
      rw [Bool.eq_false_iff]
      intro hp
      have halign : OPEN.isPrefixOf (c :: cs) = true := by
        apply @open_prefix_align _ (i ++ ']' :: post) ?_ (by simp)
        rw [← List.append_assoc, ← List.append_assoc]
        exact hp
      rw [halign] at hpre
      simpa using hpre.1
    have hstep : c :: cs ++ OPEN ++ i ++ ']' :: post =
        c :: (cs ++ OPEN ++ i ++ ']' :: post) := by
      simp
    rw [hstep]
    rw [findMarker.eq_def]
    split
    · rename_i heq
      exact absurd heq (by simp)
    · rename_i c' cs' heq
      obtain ⟨rfl, rfl⟩ : c = c' ∧ cs ++ OPEN ++ i ++ ']' :: post = cs' := by
        simpa using heq
      rw [← hstep, hnp]
      simp only [Bool.false_eq_true, if_false]
      rw [ih hpre.2]

/-! ## Trimming lemmas -/

lemma dropWhile_of_head {p : Char → Bool} {t : Str}
    (h : ∀ c, t.head? = some c → p c = false) : t.dropWhile p = t := by
  cases t with
  | nil => rfl
  | cons a l =>
    rw [List.dropWhile_cons, if_neg]
    rw [h a rfl]
    simp

lemma trimS_of_ends {t : Str} (h1 : ∀ c, t.head? = some c → isWS c = false)
    (h2 : ∀ c, t.getLast? = some c → isWS c = false) : trimS t = t := by
  unfold trimS
  rw [dropWhile_of_head h1]
  rw [dropWhile_of_head (fun c hc => h2 c (by rwa [← List.head?_reverse]))]
  exact List.reverse_reverse t

lemma trimS_cons_space (y : Str) : trimS (' ' :: y) = trimS y := by
  unfold trimS
  rw [List.dropWhile_cons, if_pos (by decide)]

lemma trimS_pad {x : Str} (h1 : ∀ c, x.head? = some c → isWS c = false)
    (h2 : ∀ c, x.getLast? = some c → isWS c = false) : trimS (x ++ [' ']) = x := by
  cases hx : x with
  | nil => decide
  | cons a l =>
    rw [← hx]
    unfold trimS
    have hh : ∀ c, (x ++ [' ']).head? = some c → isWS c = false := by
      intro c hc
      rw [hx] at hc
      simp only [List.cons_append, List.head?_cons, Option.some.injEq] at hc
      exact h1 c (by rw [hx, List.head?_cons, hc])
    rw [dropWhile_of_head hh]
    rw [List.reverse_append]
    show ((' ' :: x.reverse).dropWhile isWS).reverse = x
    rw [List.dropWhile_cons, if_pos (by decide)]
    rw [dropWhile_of_head (fun c hc => h2 c (by rwa [← List.head?_reverse]))]
    exact List.reverse_reverse x

/-! ## Character class facts for timestamps -/

lemma digit_ne {c d : Char} (h : c.isDigit = true) (hd : d.isDigit = false) : c ≠ d := by
  intro he
  subst he
  rw [h] at hd
  exact absurd hd (by simp)

lemma digit_not_ws {c : Char} (h : c.isDigit = true) : isWS c = false := by
  rw [Bool.eq_false_iff]
  intro hw
  unfold isWS at hw
  simp only [Bool.or_eq_true, decide_eq_true_eq] at hw
  rcases hw with ((((rfl | rfl) | rfl) | rfl) | rfl) | rfl <;> exact absurd h (by decide)

lemma digit_isDot {c : Char} (h : c.isDigit = true) : isDot c = true := by
  unfold isDot
  have n1 : c ≠ '\n' := digit_ne h (by decide)
  have n2 : c ≠ '\r' := digit_ne h (by decide)
  have n3 : c ≠ '\u2028' := digit_ne h (by decide)
  have n4 : c ≠ '\u2029' := digit_ne h (by decide)
  simp [n1, n2, n3, n4]

lemma tsShape_ex {t : Str} (h : tsShape t = true) :
    ∃ a b c d e f g h1 i j k l, t =
      [a, b, c, d, '-', e, f, '-', g, h1, ' ', '-', i, j, ':', k, l] ∧
      a.isDigit = true ∧ b.isDigit = true ∧ c.isDigit = true ∧ d.isDigit = true ∧
      e.isDigit = true ∧ f.isDigit = true ∧ g.isDigit = true ∧ h1.isDigit = true ∧
      i.isDigit = true ∧ j.isDigit = true ∧ k.isDigit = true ∧ l.isDigit = true := by
  unfold tsShape at h
  split at h
  · rename_i a b c d e f g h1 i j k l
    simp only [Bool.and_eq_true] at h
    refine ⟨a, b, c, d, e, f, g, h1, i, j, k, l, rfl, ?_, ?_, ?_, ?_, ?_, ?_, ?_, ?_, ?_, ?_, ?_, ?_⟩
    · exact h.1.1.1.1.1.1.1.1.1.1.1
    · exact h.1.1.1.1.1.1.1.1.1.1.2
    · exact h.1.1.1.1.1.1.1.1.1.2
    · exact h.1.1.1.1.1.1.1.1.2
    · exact h.1.1.1.1.1.1.1.2
    · exact h.1.1.1.1.1.1.2
    · exact h.1.1.1.1.1.2
    · exact h.1.1.1.1.2
    · exact h.1.1.1.2
    · exact h.1.1.2
    · exact h.1.2
    · exact h.2
  · exact absurd h (by simp)

lemma tsShape_facts {t : Str} (h : tsShape t = true) :
    t ≠ [] ∧ (∀ c, t.head? = some c → isWS c = false) ∧
      (∀ c, t.getLast? = some c → isWS c = false) ∧
      (∀ c ∈ t, c ≠ ';' ∧ (c ≠ ']' && isDot c) = true) := by
  obtain ⟨a, b, c, d, e, f, g, h1, i, j, k, l, rfl,
    ha, hb, hc, hd, he, hf, hg, hh1, hi, hj, hk, hl⟩ := tsShape_ex h
  refine ⟨by simp, ?_, ?_, ?_⟩
  · intro x hx
    obtain rfl : a = x := by simpa using hx
    exact digit_not_ws ha
  · intro x hx
    obtain rfl : l = x := by
      have : [a, b, c, d, '-', e, f, '-', g, h1, ' ', '-', i, j, ':', k, l].getLast? =
          some l := rfl
      rw [this] at hx
      simpa using hx
    exact digit_not_ws hl
  · intro x hx
    simp only [List.mem_cons, List.not_mem_nil, or_false] at hx
    have hdig : x.isDigit = true → x ≠ ';' ∧ (x ≠ ']' && isDot x) = true := by
      intro hd2
      refine ⟨digit_ne hd2 (by decide), ?_⟩
      simp [digit_ne hd2 (show (']' : Char).isDigit = false by decide), digit_isDot hd2]
    rcases hx with rfl | rfl | rfl | rfl | rfl | rfl | rfl | rfl | rfl | rfl | rfl | rfl |
        rfl | rfl | rfl | rfl | rfl
    · exact hdig ha
    · exact hdig hb
    · exact hdig hc
    · exact hdig hd
    · exact ⟨by decide, by decide⟩
    · exact hdig he
    · exact hdig hf
    · exact ⟨by decide, by decide⟩
    · exact hdig hg
    · exact hdig hh1
    · exact ⟨by decide, by decide⟩
    · exact ⟨by decide, by decide⟩
    · exact hdig hi
    · exact hdig hj
    · exact ⟨by decide, by decide⟩
    · exact hdig hk
    · exact hdig hl

/-! ## The serialized entry chain -/

lemma chain_cons_cons (t u : Str) (us : List Str) :
    chain (t :: u :: us) = t ++ ';' :: ' ' :: chain (u :: us) := rfl

lemma chain_snoc (t : Str) : ∀ {ts : List Str}, ts ≠ [] →
    chain (ts ++ [t]) = chain ts ++ ' ' :: (t ++ [';'])
  | [], h => absurd rfl h
  | [u], _ => by
    show chain [u, t] = (u ++ [';']) ++ ' ' :: (t ++ [';'])
    rw [chain_cons_cons]
    show u ++ ';' :: ' ' :: (t ++ [';']) = _
    simp
  | u :: v :: vs, _ => by
    show chain (u :: ((v :: vs) ++ [t])) = chain (u :: v :: vs) ++ ' ' :: (t ++ [';'])
    have h1 : (v :: vs) ++ [t] = v :: (vs ++ [t]) := rfl
    rw [h1, chain_cons_cons, ← h1, chain_snoc t (by simp), chain_cons_cons]
    simp

lemma mem_chain {c : Char} : ∀ {ts : List Str}, c ∈ chain ts →
    (∃ t ∈ ts, c ∈ t) ∨ c = ';' ∨ c = ' '
  | [], h => by simp [chain] at h
  | [t], h => by
    have : chain [t] = t ++ [';'] := rfl
    rw [this] at h
    rcases List.mem_append.mp h with h | h
    · exact Or.inl ⟨t, by simp, h⟩
    · right
      left
      simpa using h
  | t :: u :: us, h => by
    rw [chain_cons_cons] at h
    rcases List.mem_append.mp h with h | h
    · exact Or.inl ⟨t, by simp, h⟩
    · rcases List.mem_cons.mp h with rfl | h
      · exact Or.inr (Or.inl rfl)
      · rcases List.mem_cons.mp h with rfl | h
        · exact Or.inr (Or.inr rfl)
        · rcases mem_chain h with ⟨x, hx, hcx⟩ | h
          · exact Or.inl ⟨x, by simp [hx], hcx⟩
          · exact Or.inr h

lemma chain_innerOk {ts : List Str} (hts : ∀ t ∈ ts, tsShape t = true) :
    innerOk (chain ts ++ [' ']) = true := by
  unfold innerOk
  rw [List.all_eq_true]
  intro c hcmem
  rcases List.mem_append.mp hcmem with hcm | hcm
  · rcases mem_chain hcm with ⟨t, ht, hct⟩ | rfl | rfl
    · exact ((tsShape_facts (hts t ht)).2.2.2 c hct).2
    · decide
    · decide
  · obtain rfl : c = ' ' := by simpa using hcm
    decide

lemma chain_head {ts : List Str} (hts : ∀ t ∈ ts, tsShape t = true) :
    ∀ c, (chain ts).head? = some c → isWS c = false := by
  intro c hc
  cases ts with
  | nil => simp [chain] at hc
  | cons t us =>
    obtain ⟨a, b, c2, d, e, f, g, h1, i, j, k, l, ht, ha, -⟩ :=
      tsShape_ex (hts t (by simp))
    cases us with
    | nil =>
      have he : chain [t] = t ++ [';'] := rfl
      rw [he, ht] at hc
      obtain rfl : a = c := by simpa using hc
      exact digit_not_ws ha
    | cons u us =>
      rw [chain_cons_cons, ht] at hc
      obtain rfl : a = c := by simpa using hc
      exact digit_not_ws ha

lemma chain_last : ∀ {ts : List Str}, ts ≠ [] → (chain ts).getLast? = some ';'
  | [], h => absurd rfl h
  | [t], _ => by
    have he : chain [t] = t ++ [';'] := rfl
    rw [he]
    exact List.getLast?_concat _
  | t :: u :: us, _ => by
    rw [chain_cons_cons]
    have h1 : t ++ ';' :: ' ' :: chain (u :: us) = (t ++ [';', ' ']) ++ chain (u :: us) := by
      simp
    have hc : chain (u :: us) ≠ [] := by
      cases us with
      | nil =>
        show u ++ [';'] ≠ []
        simp
      | cons v vs =>
        rw [chain_cons_cons]
        simp
    rw [h1, List.getLast?_append_of_ne_nil _ hc]
    exact chain_last (by simp)

lemma splitSemi_ne_nil : ∀ x : Str, ∃ l ls, splitSemi x = l :: ls
  | [] => ⟨[], [], rfl⟩
  | ';' :: rest => ⟨[], splitSemi rest, rfl⟩
  | c :: rest => by
    obtain ⟨l, ls, h⟩ := splitSemi_ne_nil rest
    by_cases hc : c = ';'
    · subst hc
      exact ⟨[], splitSemi rest, rfl⟩
    · refine ⟨c :: l, ls, ?_⟩
      rw [splitSemi.eq_def]
      split
      · rename_i heq
        exact absurd heq (by simp)
      · rename_i rest2 heq
        obtain ⟨h1, -⟩ : c = ';' ∧ rest = rest2 := by simpa using heq
        exact absurd h1 hc
      · rename_i c2 rest2 hne heq
        obtain ⟨rfl, rfl⟩ : c = c2 ∧ rest = rest2 := by simpa using heq
        rw [h]

lemma splitSemi_cons_head {c : Char} (hc : c ≠ ';') {x : Str} {l : Str} {ls : List Str}
    (h : splitSemi x = l :: ls) : splitSemi (c :: x) = (c :: l) :: ls := by
  rw [splitSemi.eq_def]
  split
  · rename_i heq
    exact absurd heq (by simp)
  · rename_i rest2 heq
    obtain ⟨h1, -⟩ : c = ';' ∧ x = rest2 := by simpa using heq
    exact absurd h1 hc
  · rename_i c2 rest2 hne heq
    obtain ⟨rfl, rfl⟩ : c = c2 ∧ x = rest2 := by simpa using heq
    rw [h]

lemma splitSemi_append_semi {u : Str} (h : ∀ c ∈ u, c ≠ ';') (v : Str) :
    splitSemi (u ++ ';' :: v) = u :: splitSemi v := by
  induction u with
  | nil => rfl
  | cons c cs ih =>
    have hc : c ≠ ';' := h c (by simp)
    have ih2 := ih (fun x hx => h x (by simp [hx]))
    show splitSemi (c :: (cs ++ ';' :: v)) = (c :: cs) :: splitSemi v
    exact splitSemi_cons_head hc ih2

lemma entries_chain : ∀ {ts : List Str}, ts ≠ [] → (∀ t ∈ ts, tsShape t = true) →
    ((splitSemi (chain ts)).map trimS).filter (fun e => !e.isEmpty) = ts
  | [], h, _ => absurd rfl h
  | t :: ts, _, hts => by
    obtain ⟨tne, th1, th2, tmem⟩ := tsShape_facts (hts t (by simp))
    have tnosemi : ∀ c ∈ t, c ≠ ';' := fun c hc => (tmem c hc).1
    have ttrim : trimS t = t := trimS_of_ends th1 th2
    cases ts with
    | nil =>
      have he : chain [t] = t ++ ';' :: [] := rfl
      rw [he, splitSemi_append_semi tnosemi]
      show ((t :: [[]]).map trimS).filter (fun e => !e.isEmpty) = [t]
      simp only [List.map_cons, List.map_nil, ttrim, List.filter_cons]
      have : trimS [] = [] := rfl
      rw [this]
      simp [List.isEmpty_iff, tne]
    | cons u us =>
      rw [chain_cons_cons, splitSemi_append_semi tnosemi]
      obtain ⟨l, ls, hls⟩ := splitSemi_ne_nil (chain (u :: us))
      rw [splitSemi_cons_head (by decide) hls]
      have ihh := @entries_chain (u :: us) (by simp)
        (fun x hx => hts x (List.mem_cons_of_mem t hx))
      rw [hls] at ihh
      simp only [List.map_cons, List.filter_cons] at ihh ⊢
      rw [trimS_cons_space, ttrim]
      rw [show (!t.isEmpty) = true by simp [List.isEmpty_iff, tne]]
      simp only [if_true]
      rw [← ihh]

lemma chain_ne_nil : ∀ {ts : List Str}, ts ≠ [] → chain ts ≠ []
  | [], h => absurd rfl h
  | [t], _ => by
    show t ++ [';'] ≠ []
    simp
  | t :: u :: us, _ => by
    rw [chain_cons_cons]
    simp

lemma trimS_chain_pad {cur : List Str} (hcur : cur ≠ [])
    (hts : ∀ x ∈ cur, tsShape x = true) :
    trimS (chain cur ++ [' ']) = chain cur := by
  apply trimS_pad (chain_head hts)
  intro c hc
  rw [chain_last hcur] at hc
  obtain rfl : (';' : Char) = c := by simpa using hc
  decide

lemma append_marker_step {pre inner post : Str} (t : Str)
    (hpre : hasOpen pre = false) (hok : innerOk inner = true)
    {cur : List Str} (hcur : cur ≠ []) (htrim : trimS inner = chain cur) :
    appendTimeLogToLine (pre ++ OPEN ++ inner ++ ']' :: post) t =
      pre ++ OPEN ++ (chain (cur ++ [t]) ++ [' ']) ++ ']' :: post := by
  unfold appendTimeLogToLine
  rw [findMarker_at inner post hpre hok]
  dsimp only
  rw [htrim]
  rw [if_neg (show ¬ (chain cur).isEmpty = true by
    simp [List.isEmpty_iff, chain_ne_nil hcur])]
  rw [chain_snoc t hcur]
  simp [List.append_assoc]

lemma foldl_marker {pre post : Str} (hpre : hasOpen pre = false) :
    ∀ (ts cur : List Str) (inner : Str),
      (∀ x ∈ ts, tsShape x = true) → (∀ x ∈ cur, tsShape x = true) → cur ≠ [] →
      innerOk inner = true → trimS inner = chain cur →
      ∃ inner', ts.foldl appendTimeLogToLine (pre ++ OPEN ++ inner ++ ']' :: post) =
          pre ++ OPEN ++ inner' ++ ']' :: post ∧
        trimS inner' = chain (cur ++ ts) ∧ innerOk inner' = true
  | [], cur, inner, _, _, _, hok, htrim =>
      ⟨inner, by rw [List.foldl_nil], by simpa using htrim, hok⟩
  | t :: ts, cur, inner, hts, hcur, hne, hok, htrim => by
    rw [List.foldl_cons]
    rw [append_marker_step t hpre hok hne htrim]
    have hcur' : ∀ x ∈ cur ++ [t], tsShape x = true := by
      intro x hx
      rcases List.mem_append.mp hx with hx | hx
      · exact hcur x hx
      · simp only [List.mem_singleton] at hx
        subst hx
        exact hts _ (by simp)
    have hok' : innerOk (chain (cur ++ [t]) ++ [' ']) = true := chain_innerOk hcur'
    have htrim' : trimS (chain (cur ++ [t]) ++ [' ']) = chain (cur ++ [t]) :=
      trimS_chain_pad (by simp) hcur'
    obtain ⟨inner', h1, h2, h3⟩ := foldl_marker hpre ts (cur ++ [t]) _
      (fun x hx => hts x (by simp [hx])) hcur' (by simp) hok' htrim'
    refine ⟨inner', h1, ?_, h3⟩
    rw [h2, ← List.append_cons]

lemma timeLogEntry_decomp (t : Str) :
    timeLogEntry t = OPEN ++ (' ' :: (chain [t] ++ [' '])) ++ ']' :: [] := by
  unfold timeLogEntry
  have hch : chain [t] = t ++ [';'] := rfl
  rw [hch]
  simp

lemma first_step {L0 : Str} (hopen : hasOpen L0 = false) (t : Str) :
    ∃ pre post, hasOpen pre = false ∧
      appendTimeLogToLine L0 t =
        pre ++ OPEN ++ (' ' :: (chain [t] ++ [' '])) ++ ']' :: post := by
  cases hidx : findDVIdx L0 with
  | none =>
    have happ : appendTimeLogToLine L0 t =
        L0 ++ (if L0.length > 0 && !endsWS L0 then [' '] else []) ++ timeLogEntry t := by
      unfold appendTimeLogToLine
      rw [findMarker_none_of_noOpen hopen, hidx]
    refine ⟨L0 ++ (if L0.length > 0 && !endsWS L0 then [' '] else []), [], ?_, ?_⟩
    · by_cases hc : (L0.length > 0 && !endsWS L0) = true
      · rw [if_pos hc]
        exact hasOpen_append_space hopen
      · rw [if_neg hc, List.append_nil]
        exact hopen
    · rw [happ, timeLogEntry_decomp]
      simp [List.append_assoc]
  | some idx =>
    have happ : appendTimeLogToLine L0 t =
        L0.take idx ++
          (if (L0.take idx).length > 0 && !endsWS (L0.take idx) then [' '] else []) ++
          timeLogEntry t ++
          (if (L0.drop idx).length > 0 && !startsWS (L0.drop idx) then [' '] else []) ++
          L0.drop idx := by
      unfold appendTimeLogToLine
      rw [findMarker_none_of_noOpen hopen, hidx]
      unfold insertBeforeInlineDataview
      rw [hidx]
    refine ⟨L0.take idx ++
        (if (L0.take idx).length > 0 && !endsWS (L0.take idx) then [' '] else []),
      (if (L0.drop idx).length > 0 && !startsWS (L0.drop idx) then [' '] else []) ++
        L0.drop idx, ?_, ?_⟩
    · have htake : hasOpen (L0.take idx) = false :=
        hasOpen_of_prefix (List.take_prefix idx L0) hopen
      by_cases hc : ((L0.take idx).length > 0 && !endsWS (L0.take idx)) = true
      · rw [if_pos hc]
        exact hasOpen_append_space htake
      · rw [if_neg hc, List.append_nil]
        exact htake
    · rw [happ, timeLogEntry_decomp]
      simp [List.append_assoc]

/-- C3 counterexample: a marker-less line that contains a dangling open
token breaks the round trip: after two appended timestamps the marker's
entries are not the two timestamps. -/
theorem c3_counterexample :
    findMarker "[time-logs::x".data = none ∧
    tsShape "2025-01-01 -10:00".data = true ∧
    tsShape "2025-01-02 -11:00".data = true ∧
    entriesOfLine (appendTimeLogToLine
        (appendTimeLogToLine "[time-logs::x".data "2025-01-01 -10:00".data)
        "2025-01-02 -11:00".data) ≠
      ["2025-01-01 -10:00".data, "2025-01-02 -11:00".data] := by
  refine ⟨by decide, by decide, by decide, by decide⟩

/-- C3 amended: for every initially marker-less line that contains no
occurrence of the open token, and every non-empty sequence of appended
timestamps in the wall-clock format, the resulting line contains a
marker whose entries are exactly the appended timestamps in call order;
moreover appending a timestamp to any line holding a marker rewrites its
inner text to (existing non-empty, existing plus space, else space) plus
the new entry, the delimiter, and a trailing space. -/
theorem c3_amended_roundtrip (L0 : Str) (ts : List Str) (hopen : hasOpen L0 = false)
    (hts : ∀ t ∈ ts, tsShape t = true) (hne : ts ≠ []) :
    (∃ pre inner post,
        findMarker (ts.foldl appendTimeLogToLine L0) = some (pre, inner, post) ∧
        entriesOfInner inner = ts) ∧
    (∀ line pre inner post t, findMarker line = some (pre, inner, post) →
        appendTimeLogToLine line t =
          pre ++ OPEN ++
            ((if trimS inner = [] then [' '] else trimS inner ++ [' ']) ++
              (t ++ [';'] ++ [' '])) ++ ']' :: post) := by
  constructor
  · obtain ⟨t1, ts', rfl⟩ : ∃ t1 ts', ts = t1 :: ts' := by
      cases ts with
      | nil => exact absurd rfl hne
      | cons a l => exact ⟨a, l, rfl⟩
    rw [List.foldl_cons]
    obtain ⟨pre, post, hpre, hL1⟩ := first_step hopen t1
    rw [hL1]
    have hts1 : ∀ x ∈ [t1], tsShape x = true := by
      intro x hx
      simp only [List.mem_singleton] at hx
      subst hx
      exact hts _ (by simp)
    have hok1 : innerOk (' ' :: (chain [t1] ++ [' '])) = true := by
      have h1 := chain_innerOk hts1
      unfold innerOk at h1 ⊢
      rw [List.all_cons, h1]
      decide
    have htrim1 : trimS (' ' :: (chain [t1] ++ [' '])) = chain [t1] := by
      rw [trimS_cons_space]
      exact trimS_chain_pad (by simp) hts1
    obtain ⟨inner', h1, h2, h3⟩ := foldl_marker hpre ts' [t1] _
      (fun x hx => hts x (by simp [hx])) hts1 (by simp) hok1 htrim1
    rw [h1]
    refine ⟨pre, inner', post, findMarker_at _ _ hpre h3, ?_⟩
    unfold entriesOfInner
    rw [h2]
    exact entries_chain (by simp) hts
  · intro line pre inner post t hm
    unfold appendTimeLogToLine
    rw [hm]
    dsimp only
    by_cases he : trimS inner = []
    · rw [if_pos (by simp [List.isEmpty_iff, he]), if_pos he]
      simp [List.append_assoc]
    · rw [if_neg (by simp [List.isEmpty_iff, he]), if_neg he]
      simp [List.append_assoc]

theorem c3_amended_roundtrip_witness :
    hasOpen "- [ ] Write report".data = false ∧
    (∀ t ∈ (["2025-08-28 -14:32".data, "2025-08-28 -15:00".data] : List Str),
      tsShape t = true) ∧
    (∃ pre inner post,
        findMarker ((["2025-08-28 -14:32".data, "2025-08-28 -15:00".data] :
            List Str).foldl appendTimeLogToLine "- [ ] Write report".data) =
          some (pre, inner, post) ∧
        entriesOfInner inner =
          ["2025-08-28 -14:32".data, "2025-08-28 -15:00".data]) :=
  ⟨by decide, by decide,
    (c3_amended_roundtrip "- [ ] Write report".data
      ["2025-08-28 -14:32".data, "2025-08-28 -15:00".data]
      (by decide) (by decide) (by simp)).1⟩

/-! ## Auto-detection lemmas -/

lemma not_checked_of_unchecked {a : Str} (hu : isUncheckedTaskLine a = true) :
    isCheckedTaskLine a = false := by
  unfold isUncheckedTaskLine at hu
  split at hu
  · rename_i c1 c2 c3 rest heq
    simp only [Bool.and_eq_true] at hu
    unfold isCheckedTaskLine
    split
    · rename_i c1' rest' heq2
      rw [heq] at heq2
      simp only [List.cons.injEq, true_and] at heq2
      obtain ⟨h1, h2⟩ := heq2
      subst h1
      subst h2
      rw [List.dropWhile_cons, if_pos hu.1.2]
      rw [List.dropWhile_cons, if_neg (by decide)]
      simp
    · rfl
  · exact absurd hu (by simp)

lemma uc_mutex {b a : Str} (hu : isUncheckedTaskLine b = true)
    (hc : isCheckedTaskLine a = true) : b ≠ a := by
  intro he
  subst he
  rw [not_checked_of_unchecked hu] at hc
  exact absurd hc (by simp)

lemma processLine_snd (now b a : Str) : (processLine now b a).2 = triggersAt b a := by
  unfold processLine triggersAt
  by_cases hba : b = a
  · rw [if_pos hba]
    subst hba
    by_cases hu : isUncheckedTaskLine b = true
    · rw [hu, not_checked_of_unchecked hu]
      rfl
    · rw [Bool.eq_false_iff.mpr hu]
      rfl
  · rw [if_neg hba]
    by_cases hcond : (isUncheckedTaskLine b && isCheckedTaskLine a &&
        !containsTimeLogs a) = true
    · rw [if_pos hcond, hcond]
    · rw [if_neg hcond, Bool.eq_false_iff.mpr hcond]

lemma processLine_fst (now b a : Str) :
    (processLine now b a).1 =
      if triggersAt b a = true then appendTimeLogToLine a now else a := by
  unfold processLine triggersAt
  by_cases hba : b = a
  · rw [if_pos hba]
    subst hba
    by_cases hu : isUncheckedTaskLine b = true
    · rw [hu, not_checked_of_unchecked hu]
      rfl
    · rw [Bool.eq_false_iff.mpr hu]
      rfl
  · rw [if_neg hba]
    by_cases hcond : (isUncheckedTaskLine b && isCheckedTaskLine a &&
        !containsTimeLogs a) = true
    · rw [if_pos hcond, if_pos hcond]
    · rw [if_neg hcond, if_neg hcond]

lemma zipWith_get? {α β γ : Type} (f : α → β → γ) :
    ∀ (as : List α) (bs : List β) (i : Nat),
      (List.zipWith f as bs).get? i = (as.get? i).bind fun a => (bs.get? i).map (f a)
  | [], _, _ => by simp
  | _ :: _, [], _ => by simp
  | a :: as, b :: bs, 0 => by simp
  | a :: as, b :: bs, i + 1 => by
    simp only [List.zipWith_cons_cons, List.get?_cons_succ]
    exact zipWith_get? f as bs i

lemma anyDone_iff (prev new now : Str) :
    anyDone prev new now = true ↔
      ∃ i b a, (splitLines prev).get? i = some b ∧ (splitLines new).get? i = some a ∧
        triggersAt b a = true := by
  unfold anyDone
  rw [List.any_eq_true]
  constructor
  · rintro ⟨x, hx, hxt⟩
    obtain ⟨i, hi⟩ := List.mem_iff_get?.mp hx
    rw [zipWith_get?] at hi
    cases hp : (splitLines prev).get? i with
    | none =>
      rw [hp] at hi
      simp at hi
    | some b =>
      cases hn : (splitLines new).get? i with
      | none =>
        rw [hp, hn] at hi
        simp at hi
      | some a =>
        rw [hp, hn] at hi
        simp only [Option.bind_eq_bind, Option.some_bind, Option.map_some',
          Option.some.injEq] at hi
        refine ⟨i, b, a, hp, hn, ?_⟩
        rw [← processLine_snd now, hi]
        simpa using hxt
  · rintro ⟨i, b, a, hp, hn, ht⟩
    refine ⟨true, ?_, rfl⟩
    rw [List.mem_iff_get?]
    refine ⟨i, ?_⟩
    rw [zipWith_get?, hp, hn]
    simp [processLine_snd, ht]

lemma stripCR_cons {c d : Char} (ds : Str) :
    stripCR (c :: d :: ds) = c :: stripCR (d :: ds) := by
  unfold stripCR
  rw [List.getLast?_cons_cons]
  by_cases h : (d :: ds).getLast? = some '\r'
  · rw [if_pos h, if_pos h]
    rfl
  · rw [if_neg h, if_neg h]

lemma splitLines_cons_generic {c : Char} {cs : Str} (hc : c ≠ '\n')
    (hcr : ∀ r, ¬(c = '\r' ∧ cs = '\n' :: r)) :
    splitLines (c :: cs) =
      match splitLines cs with
      | l :: ls => (c :: l) :: ls
      | [] => [[c]] := by
  rw [splitLines.eq_def]
  split
  · rename_i heq
    exact absurd heq (by simp)
  · rename_i r heq
    simp only [List.cons.injEq] at heq
    exact absurd heq.1 (fun h1 => hcr r ⟨h1, heq.2⟩)
  · rename_i r heq
    simp only [List.cons.injEq] at heq
    exact absurd heq.1 hc
  · rename_i c2 r h1 h2 heq
    simp only [List.cons.injEq] at heq
    obtain ⟨rfl, rfl⟩ := heq
    rfl

lemma splitLines_ne_nil (s : Str) : splitLines s ≠ [] := by
  induction s using splitLines.induct with
  | case1 =>
    rw [show splitLines [] = [[]] from rfl]
    simp
  | case2 rest ih =>
    rw [show splitLines ('\r' :: '\n' :: rest) = [] :: splitLines rest from rfl]
    simp
  | case3 rest ih =>
    rw [show splitLines ('\n' :: rest) = [] :: splitLines rest from rfl]
    simp
  | case4 c rest h1 h2 l ls heq ih =>
    rw [splitLines_cons_generic (fun h => h2 h) (fun r hr => h1 r hr.1 hr.2), heq]
    simp
  | case5 c rest h1 h2 heq ih =>
    rw [splitLines_cons_generic (fun h => h2 h) (fun r hr => h1 r hr.1 hr.2), heq]
    simp

lemma splitLines_single : ∀ {l : Str}, '\n' ∉ l → splitLines l = [l]
  | [], _ => rfl
  | c :: cs, h => by
    have hc : c ≠ '\n' := fun he => h (he ▸ List.mem_cons_self c cs)
    have hcs : '\n' ∉ cs := fun hm => h (List.mem_cons_of_mem c hm)
    rw [splitLines_cons_generic hc
      (fun r hr => hcs (by rw [hr.2]; exact List.mem_cons_self _ _))]
    rw [splitLines_single hcs]

lemma splitLines_append_lf : ∀ (l : Str), '\n' ∉ l → ∀ (rest : Str),
    splitLines (l ++ '\n' :: rest) = stripCR l :: splitLines rest
  | [], _, rest => rfl
  | c :: cs, h, rest => by
    have hc : c ≠ '\n' := fun he => h (he ▸ List.mem_cons_self c cs)
    have hcs : '\n' ∉ cs := fun hm => h (List.mem_cons_of_mem c hm)
    show splitLines (c :: (cs ++ '\n' :: rest)) = _
    cases cs with
    | nil =>
      simp only [List.nil_append]
      by_cases hcr : c = '\r'
      · subst hcr
        rw [show splitLines ('\r' :: '\n' :: rest) = [] :: splitLines rest from rfl]
        rw [show stripCR ['\r'] = [] by decide]
      · rw [splitLines_cons_generic hc (fun r hr => absurd hr.1 hcr)]
        rw [show splitLines ('\n' :: rest) = [] :: splitLines rest from rfl]
        rw [show stripCR [c] = [c] by
          unfold stripCR
          rw [if_neg]
          simp [hcr]]
    | cons d ds =>
      have hd : d ≠ '\n' := fun he => hcs (he ▸ List.mem_cons_self d ds)
      rw [splitLines_cons_generic hc
        (fun r hr => hd (by
          have := hr.2
          simp only [List.cons_append, List.cons.injEq] at this
          exact this.1))]
      rw [splitLines_append_lf (d :: ds) hcs rest]
      rw [stripCR_cons]

lemma splitLines_no_lf (s : Str) : ∀ l ∈ splitLines s, '\n' ∉ l := by
  induction s using splitLines.induct with
  | case1 =>
    intro l hl
    rw [show splitLines [] = [[]] from rfl] at hl
    simp only [List.mem_singleton] at hl
    subst hl
    simp
  | case2 rest ih =>
    intro l hl
    rw [show splitLines ('\r' :: '\n' :: rest) = [] :: splitLines rest from rfl] at hl
    rcases List.mem_cons.mp hl with rfl | hm
    · simp
    · exact ih l hm
  | case3 rest ih =>
    intro l hl
    rw [show splitLines ('\n' :: rest) = [] :: splitLines rest from rfl] at hl
    rcases List.mem_cons.mp hl with rfl | hm
    · simp
    · exact ih l hm
  | case4 c rest h1 h2 l0 ls0 heq ih =>
    intro l hl
    rw [splitLines_cons_generic (fun h => h2 h) (fun r hr => h1 r hr.1 hr.2), heq] at hl
    dsimp only at hl
    rcases List.mem_cons.mp hl with rfl | hm
    · intro hmem
      rcases List.mem_cons.mp hmem with he | hm2
      · exact h2 he.symm
      · exact ih l0 (by rw [heq]; exact List.mem_cons_self _ _) hm2
    · exact ih l (by rw [heq]; exact List.mem_cons_of_mem _ hm)
  | case5 c rest h1 h2 heq ih =>
    exact absurd heq (splitLines_ne_nil rest)

lemma splitLines_joinLF : ∀ (ls : List Str), ls ≠ [] → (∀ l ∈ ls, '\n' ∉ l) →
    (splitLines (joinLF ls)).length = ls.length ∧
    ∀ i x y, (splitLines (joinLF ls)).get? i = some x → ls.get? i = some y →
      x = y ∨ x = stripCR y
  | [], hne, _ => absurd rfl hne
  | [l], _, hnl => by
    rw [show joinLF [l] = l from rfl, splitLines_single (hnl l (by simp))]
    refine ⟨rfl, ?_⟩
    intro i x y hx hy
    cases i with
    | zero =>
      left
      rw [List.get?_cons_zero] at hx hy
      exact (Option.some.inj hx).symm.trans (Option.some.inj hy)
    | succ n =>
      rw [List.get?_cons_succ] at hx
      simp at hx
  | l :: l2 :: ls, _, hnl => by
    have h1 : '\n' ∉ l := hnl l (by simp)
    have hnl2 : ∀ x ∈ l2 :: ls, '\n' ∉ x := fun x hx => hnl x (List.mem_cons_of_mem l hx)
    obtain ⟨ihlen, ihidx⟩ := splitLines_joinLF (l2 :: ls) (by simp) hnl2
    rw [show joinLF (l :: l2 :: ls) = l ++ '\n' :: joinLF (l2 :: ls) from rfl]
    rw [splitLines_append_lf l h1 (joinLF (l2 :: ls))]
    constructor
    · simp only [List.length_cons, ihlen]
    · intro i x y hx hy
      cases i with
      | zero =>
        right
        rw [List.get?_cons_zero] at hx hy
        rw [← Option.some.inj hx, ← Option.some.inj hy]
      | succ n =>
        rw [List.get?_cons_succ] at hx hy
        exact ihidx n x y hx hy


lemma grabInner_decomp : ∀ {s i rest : Str}, grabInner s = some (i, rest) →
    s = i ++ ']' :: rest ∧ innerOk i = true
  | [], i, rest, h => by simp [grabInner] at h
  | c :: cs, i, rest, h => by
    unfold grabInner at h
    by_cases hc : c = ']'
    · rw [if_pos hc] at h
      simp only [Option.some.injEq, Prod.mk.injEq] at h
      obtain ⟨h1, h2⟩ := h
      subst hc
      rw [← h1, ← h2]
      exact ⟨rfl, rfl⟩
    · rw [if_neg hc] at h
      by_cases hd : isDot c = true
      · rw [if_pos hd] at h
        cases hg : grabInner cs with
        | none =>
          rw [hg] at h
          simp at h
        | some p =>
          rw [hg] at h
          obtain ⟨i0, r0⟩ := p
          simp only [Option.map_some', Option.some.injEq, Prod.mk.injEq] at h
          obtain ⟨h1, h2⟩ := h
          obtain ⟨hs, hok⟩ := grabInner_decomp hg
          subst h2
          rw [← h1]
          refine ⟨by rw [hs]; rfl, ?_⟩
          unfold innerOk at hok ⊢
          rw [List.all_cons, Bool.and_eq_true]
          refine ⟨?_, hok⟩
          simp [hc, hd]
      · rw [if_neg hd] at h
        simp at h

lemma findMarker_decomp : ∀ {s pre inner post : Str},
    findMarker s = some (pre, inner, post) →
    s = pre ++ OPEN ++ inner ++ ']' :: post ∧ innerOk inner = true
  | [], pre, inner, post, h => by simp [findMarker] at h
  | c :: cs, pre, inner, post, h => by
    rw [findMarker.eq_def] at h
    dsimp only at h
    by_cases hp : OPEN.isPrefixOf (c :: cs) = true
    · rw [if_pos hp] at h
      cases hg : grabInner ((c :: cs).drop OPEN.length) with
      | some q =>
        rw [hg] at h
        obtain ⟨i0, r0⟩ := q
        dsimp only at h
        simp only [Option.some.injEq, Prod.mk.injEq] at h
        obtain ⟨h1, h2, h3⟩ := h
        obtain ⟨hs, hok⟩ := grabInner_decomp hg
        subst h1
        obtain ⟨t, ht⟩ := List.isPrefixOf_iff_prefix.mp hp
        have hdrop : (c :: cs).drop OPEN.length = t := by rw [← ht, List.drop_left]
        rw [hdrop] at hs
        refine ⟨?_, h2 ▸ hok⟩
        rw [← ht, hs, ← h2, ← h3]
        simp
      | none =>
        rw [hg] at h
        dsimp only at h
        cases hf : findMarker cs with
        | some r =>
          rw [hf] at h
          obtain ⟨p1, i1, r1⟩ := r
          dsimp only at h
          simp only [Option.some.injEq, Prod.mk.injEq] at h
          obtain ⟨h1, h2, h3⟩ := h
          obtain ⟨hs, hok⟩ := findMarker_decomp hf
          subst h1
          refine ⟨?_, h2 ▸ hok⟩
          rw [hs, ← h2, ← h3]
          simp
        | none =>
          rw [hf] at h
          simp at h
    · rw [if_neg hp] at h
      cases hf : findMarker cs with
      | some r =>
        rw [hf] at h
        obtain ⟨p1, i1, r1⟩ := r
        dsimp only at h
        simp only [Option.some.injEq, Prod.mk.injEq] at h
        obtain ⟨h1, h2, h3⟩ := h
        obtain ⟨hs, hok⟩ := findMarker_decomp hf
        subst h1
        refine ⟨?_, h2 ▸ hok⟩
        rw [hs, ← h2, ← h3]
        simp
      | none =>
        rw [hf] at h
        simp at h

lemma contains_at {i : Str} (hok : innerOk i = true) :
    ∀ (x y : Str), containsTimeLogs (x ++ OPEN ++ i ++ ']' :: y) = true
  | [], y => by
    unfold containsTimeLogs
    rw [findMarker_at i y (show hasOpen ([] : Str) = false from rfl) hok]
    rfl
  | c :: cs, y => by
    unfold containsTimeLogs
    have hform : ((c :: cs) ++ OPEN ++ i ++ ']' :: y) = c :: (cs ++ OPEN ++ i ++ ']' :: y) := by
      simp
    rw [hform, findMarker.eq_def]
    dsimp only
    have hic := contains_at hok cs y
    unfold containsTimeLogs at hic
    by_cases hp : OPEN.isPrefixOf (c :: (cs ++ OPEN ++ i ++ ']' :: y)) = true
    · rw [if_pos hp]
      cases hg : grabInner ((c :: (cs ++ OPEN ++ i ++ ']' :: y)).drop OPEN.length) with
      | some q =>
        obtain ⟨i0, r0⟩ := q
        rfl
      | none =>
        cases hf : findMarker (cs ++ OPEN ++ i ++ ']' :: y) with
        | none =>
          rw [hf] at hic
          simp at hic
        | some r =>
          obtain ⟨p1, i1, r1⟩ := r
          rfl
    · rw [if_neg hp]
      cases hf : findMarker (cs ++ OPEN ++ i ++ ']' :: y) with
      | none =>
        rw [hf] at hic
        simp at hic
      | some r =>
        obtain ⟨p1, i1, r1⟩ := r
        rfl

lemma mem_trimS {c : Char} {s : Str} (h : c ∈ trimS s) : c ∈ s := by
  unfold trimS at h
  rw [List.mem_reverse] at h
  have h2 := (List.dropWhile_sublist _).subset h
  rw [List.mem_reverse] at h2
  exact (List.dropWhile_sublist _).subset h2


lemma no_lf_timeLogEntry {t : Str} (ht : '\n' ∉ t) : '\n' ∉ timeLogEntry t := by
  intro hm
  unfold timeLogEntry at hm
  rcases List.mem_append.mp hm with hm | hm
  · revert hm
    decide
  · rcases List.mem_cons.mp hm with he | hm
    · exact absurd he (by decide)
    · rcases List.mem_append.mp hm with hm | hm
      · exact ht hm
      · revert hm
        decide

lemma no_lf_append {a t : Str} (ha : '\n' ∉ a) (ht : '\n' ∉ t) :
    '\n' ∉ appendTimeLogToLine a t := by
  unfold appendTimeLogToLine
  cases hf : findMarker a with
  | some r =>
    obtain ⟨pre, inner, post⟩ := r
    obtain ⟨hs, hok⟩ := findMarker_decomp hf
    dsimp only
    have hpre : '\n' ∉ pre := fun hx => ha (by rw [hs]; simp [hx])
    have hpost : '\n' ∉ post := fun hx => ha (by rw [hs]; simp [hx])
    have hinner : '\n' ∉ trimS inner := fun hx => ha (by rw [hs]; simp [mem_trimS hx])
    intro hm
    by_cases hemp : (trimS inner).isEmpty = true
    · rw [if_pos hemp] at hm
      rcases List.mem_append.mp hm with hm | hm
      · rcases List.mem_append.mp hm with hm | hm
        · rcases List.mem_append.mp hm with hm | hm
          · exact hpre hm
          · revert hm
            decide
        · rcases List.mem_cons.mp hm with he | hm
          · exact absurd he (by decide)
          · rcases List.mem_append.mp hm with hm | hm
            · exact ht hm
            · revert hm
              decide
      · rcases List.mem_cons.mp hm with he | hm
        · exact absurd he (by decide)
        · rcases List.mem_cons.mp hm with he | hm
          · exact absurd he (by decide)
          · exact hpost hm
    · rw [if_neg hemp] at hm
      rcases List.mem_append.mp hm with hm | hm
      · rcases List.mem_append.mp hm with hm | hm
        · rcases List.mem_append.mp hm with hm | hm
          · exact hpre hm
          · revert hm
            decide
        · rcases List.mem_append.mp hm with hm | hm
          · exact hinner hm
          · rcases List.mem_cons.mp hm with he | hm
            · exact absurd he (by decide)
            · rcases List.mem_append.mp hm with hm | hm
              · exact ht hm
              · revert hm
                decide
      · rcases List.mem_cons.mp hm with he | hm
        · exact absurd he (by decide)
        · rcases List.mem_cons.mp hm with he | hm
          · exact absurd he (by decide)
          · exact hpost hm
  | none =>
    cases hdv : findDVIdx a with
    | some idx =>
      dsimp only
      unfold insertBeforeInlineDataview
      rw [hdv]
      dsimp only
      intro hm
      simp only [List.mem_append] at hm
      rcases hm with (((hm | hm) | hm) | hm) | hm
      · exact ha ((List.take_sublist _ _).subset hm)
      · revert hm
        by_cases hb : ((a.take idx).length > 0 && !endsWS (a.take idx)) = true
        · rw [if_pos hb]
          decide
        · rw [if_neg hb]
          decide
      · exact no_lf_timeLogEntry ht hm
      · revert hm
        by_cases hb : ((a.drop idx).length > 0 && !startsWS (a.drop idx)) = true
        · rw [if_pos hb]
          decide
        · rw [if_neg hb]
          decide
      · exact ha ((List.drop_sublist _ _).subset hm)
    | none =>
      dsimp only
      intro hm
      simp only [List.mem_append] at hm
      rcases hm with (hm | hm) | hm
      · exact ha hm
      · revert hm
        by_cases hb : (a.length > 0 && !endsWS a) = true
        · rw [if_pos hb]
          decide
        · rw [if_neg hb]
          decide
      · exact no_lf_timeLogEntry ht hm

lemma contains_append_new {a t : Str} (hno : findMarker a = none) (hts : tsShape t = true) :
    containsTimeLogs (appendTimeLogToLine a t) = true := by
  have hfacts := (tsShape_facts hts).2.2.2
  have hok : innerOk (' ' :: (t ++ ';' :: ' ' :: [])) = true := by
    unfold innerOk
    rw [List.all_eq_true]
    intro c hc
    rcases List.mem_cons.mp hc with rfl | hc
    · decide
    · rcases List.mem_append.mp hc with hc | hc
      · exact (hfacts c hc).2
      · rcases List.mem_cons.mp hc with rfl | hc
        · decide
        · rcases List.mem_cons.mp hc with rfl | hc
          · decide
          · simp at hc
  have hTL : timeLogEntry t = OPEN ++ (' ' :: (t ++ ';' :: ' ' :: [])) ++ ']' :: [] := by
    unfold timeLogEntry
    simp
  unfold appendTimeLogToLine
  rw [hno]
  cases hdv : findDVIdx a with
  | none =>
    dsimp only
    rw [hTL]
    have hca := contains_at hok (a ++ (if a.length > 0 && !endsWS a then [' '] else [])) []
    simpa [List.append_assoc] using hca
  | some idx =>
    dsimp only
    unfold insertBeforeInlineDataview
    rw [hdv]
    dsimp only
    rw [hTL]
    have hca := contains_at hok
      (a.take idx ++ (if (a.take idx).length > 0 && !endsWS (a.take idx) then [' '] else []))
      ((if (a.drop idx).length > 0 && !startsWS (a.drop idx) then [' '] else []) ++ a.drop idx)
    simpa [List.append_assoc] using hca

lemma contains_stripCR {l : Str} (h : containsTimeLogs l = true) :
    containsTimeLogs (stripCR l) = true := by
  unfold stripCR
  by_cases hcr : l.getLast? = some '\r'
  · rw [if_pos hcr]
    unfold containsTimeLogs at h
    cases hf : findMarker l with
    | none =>
      rw [hf] at h
      simp at h
    | some r =>
      obtain ⟨pre, inner, post⟩ := r
      obtain ⟨hs, hok⟩ := findMarker_decomp hf
      by_cases hp0 : post = []
      · exfalso
        subst hp0
        rw [hs] at hcr
        rw [show pre ++ OPEN ++ inner ++ ']' :: [] = (pre ++ OPEN ++ inner) ++ [']'] by simp] at hcr
        rw [List.getLast?_concat] at hcr
        exact absurd (Option.some.inj hcr) (by decide)
      · have hdl : l.dropLast = pre ++ OPEN ++ inner ++ ']' :: post.dropLast := by
          rw [hs]
          rw [show pre ++ OPEN ++ inner ++ ']' :: post = (pre ++ OPEN ++ inner) ++ (']' :: post) by simp]
          rw [List.dropLast_append_of_ne_nil _ (by simp)]
          rw [List.dropLast_cons_of_ne_nil hp0]
        rw [hdl]
        exact contains_at hok pre post.dropLast
  · rw [if_neg hcr]
    exact h

lemma findMarker_none_of_not_contains {a : Str} (h : containsTimeLogs a = false) :
    findMarker a = none := by
  unfold containsTimeLogs at h
  exact Option.not_isSome_iff_eq_none.mp (by simp [h])


lemma checked_append {w : Str} (s : Str) (h : isCheckedTaskLine w = true) :
    isCheckedTaskLine (w ++ s) = true := by
  unfold isCheckedTaskLine at h ⊢
  split at h
  · rename_i c1 rest heq
    have hne : (List.dropWhile isWS w).isEmpty = false := by
      rw [heq]
      rfl
    have hdw : List.dropWhile isWS (w ++ s) = '-' :: c1 :: '[' :: (rest ++ s) := by
      rw [List.dropWhile_append, if_neg (by rw [hne]; simp), heq]
      rfl
    rw [hdw]
    simp only [Bool.and_eq_true] at h
    obtain ⟨hws, hrest⟩ := h
    split
    · rename_i c1x restx heqx
      simp only [List.cons.injEq, true_and] at heqx
      obtain ⟨h1, h2⟩ := heqx
      subst h1
      subst h2
      rw [Bool.and_eq_true]
      refine ⟨hws, ?_⟩
      split at hrest
      · rename_i x rest2 heq2
        have hne2 : (List.dropWhile isWS rest).isEmpty = false := by
          rw [heq2]
          rfl
        have hdw2 : List.dropWhile isWS (rest ++ s) = x :: (rest2 ++ s) := by
          rw [List.dropWhile_append, if_neg (by rw [hne2]; simp), heq2]
          rfl
        rw [hdw2]
        simp only [Bool.and_eq_true] at hrest
        obtain ⟨hx, htail⟩ := hrest
        split
        · rename_i x2 rest2x heqy
          simp only [List.cons.injEq] at heqy
          obtain ⟨hy1, hy2⟩ := heqy
          subst hy1
          subst hy2
          rw [Bool.and_eq_true]
          refine ⟨hx, ?_⟩
          split at htail
          · rename_i c3 tail heq3
            have hne3 : (List.dropWhile isWS rest2).isEmpty = false := by
              rw [heq3]
              rfl
            have hdw3 : List.dropWhile isWS (rest2 ++ s) = ']' :: c3 :: (tail ++ s) := by
              rw [List.dropWhile_append, if_neg (by rw [hne3]; simp), heq3]
              rfl
            rw [hdw3]
            split
            · rename_i c3x tailx heqz
              simp only [List.cons.injEq, true_and] at heqz
              obtain ⟨hz1, hz2⟩ := heqz
              subst hz1
              exact htail
            · rename_i hno
              exact absurd rfl (hno c3 (tail ++ s))
          · exact absurd htail (by simp)
        · rename_i heqz
          exact absurd heqz (by simp)
      · exact absurd hrest (by simp)
    · rename_i hno
      exact absurd rfl (hno c1 (rest ++ s))
  · exact absurd h (by simp)

lemma triggers_stripCR {b a : Str} (h : triggersAt b (stripCR a) = true) :
    triggersAt b a = true := by
  by_cases hcr : a.getLast? = some '\r'
  · obtain ⟨a0, rfl⟩ := List.getLast?_eq_some_iff.mp hcr
    have hstrip : stripCR (a0 ++ ['\r']) = a0 := by
      unfold stripCR
      rw [if_pos (List.getLast?_concat a0), List.dropLast_concat]
    rw [hstrip] at h
    unfold triggersAt at h ⊢
    simp only [Bool.and_eq_true, Bool.not_eq_true'] at h ⊢
    obtain ⟨⟨hu, hc⟩, hn⟩ := h
    refine ⟨⟨hu, checked_append ['\r'] hc⟩, ?_⟩
    by_contra hcc
    have hct : containsTimeLogs (a0 ++ ['\r']) = true := by
      cases hb : containsTimeLogs (a0 ++ ['\r']) with
      | false => exact absurd hb hcc
      | true => rfl
    have h2 := contains_stripCR hct
    rw [hstrip] at h2
    rw [h2] at hn
    exact absurd hn (by simp)
  · have hid : stripCR a = a := by
      unfold stripCR
      rw [if_neg hcr]
    rw [hid] at h
    exact h


lemma doneTaskLines_get? (prev new now : Str) (i : Nat) :
    (doneTaskLines prev new now).get? i =
      match (splitLines prev).get? i, (splitLines new).get? i with
      | some b, some a =>
          some (if triggersAt b a = true then appendTimeLogToLine a now else a)
      | none, some a => some a
      | some _, none => none
      | none, none => none := by
  unfold doneTaskLines
  dsimp only
  cases hp : (splitLines prev).get? i with
  | some b =>
    cases hn : (splitLines new).get? i with
    | some a =>
      obtain ⟨hip, -⟩ := List.get?_eq_some.mp hp
      obtain ⟨hin, -⟩ := List.get?_eq_some.mp hn
      have hlen : i < (List.zipWith (fun b a => (processLine now b a).1)
          (splitLines prev) (splitLines new)).length := by
        rw [List.length_zipWith]
        exact lt_min hip hin
      rw [List.get?_append hlen, zipWith_get?, hp, hn]
      simp only [Option.bind_eq_bind, Option.some_bind, Option.map_some']
      rw [processLine_fst]
    | none =>
      have hin : (splitLines new).length ≤ i := List.get?_eq_none.mp hn
      obtain ⟨hip, -⟩ := List.get?_eq_some.mp hp
      have hz : (List.zipWith (fun b a => (processLine now b a).1)
          (splitLines prev) (splitLines new)).length ≤ i := by
        rw [List.length_zipWith]
        exact le_trans (min_le_right _ _) hin
      rw [List.get?_append_right hz, List.length_zipWith, List.get?_drop]
      rcases le_total (splitLines prev).length (splitLines new).length with hPN | hNP
      · exfalso
        omega
      · rw [min_eq_right hNP]
        rw [List.get?_eq_none.mpr (le_trans hNP (Nat.le_add_right _ _))]
  | none =>
    have hip : (splitLines prev).length ≤ i := List.get?_eq_none.mp hp
    have hz : (List.zipWith (fun b a => (processLine now b a).1)
        (splitLines prev) (splitLines new)).length ≤ i := by
      rw [List.length_zipWith]
      exact le_trans (min_le_left _ _) hip
    rw [List.get?_append_right hz, List.length_zipWith, List.get?_drop]
    cases hn : (splitLines new).get? i with
    | some a =>
      obtain ⟨hin, -⟩ := List.get?_eq_some.mp hn
      have hmin : (splitLines prev).length ⊓ (splitLines new).length =
          (splitLines prev).length := min_eq_left (le_of_lt (lt_of_le_of_lt hip hin))
      rw [hmin, Nat.add_sub_cancel' hip, hn]
    | none =>
      rcases le_total (splitLines prev).length (splitLines new).length with hPN | hNP
      · rw [min_eq_left hPN, Nat.add_sub_cancel' hip, hn]
      · rw [min_eq_right hNP]
        rw [List.get?_eq_none.mpr (le_trans hNP (Nat.le_add_right _ _))]

lemma doneTaskLines_ne_nil (prev new now : Str) : doneTaskLines prev new now ≠ [] := by
  have hlen : (doneTaskLines prev new now).length =
      (splitLines prev).length ⊓ (splitLines new).length +
        ((splitLines new).length - (splitLines prev).length) := by
    unfold doneTaskLines
    simp [List.length_append, List.length_zipWith, List.length_drop]
  apply List.ne_nil_of_length_pos
  rw [hlen]
  have hN : 0 < (splitLines new).length := List.length_pos.mpr (splitLines_ne_nil new)
  rcases le_total (splitLines prev).length (splitLines new).length with h | h
  · rw [min_eq_left h]
    omega
  · rw [min_eq_right h]
    omega

lemma doneTaskLines_no_lf (prev new now : Str) (hts : tsShape now = true) :
    ∀ l ∈ doneTaskLines prev new now, '\n' ∉ l := by
  have hnow : '\n' ∉ now := by
    intro hm
    exact absurd ((tsShape_facts hts).2.2.2 '\n' hm).2 (by decide)
  intro l hl
  obtain ⟨i, hi⟩ := List.mem_iff_get?.mp hl
  have hchar := doneTaskLines_get? prev new now i
  rw [hi] at hchar
  cases hp : (splitLines prev).get? i with
  | some b =>
    cases hn : (splitLines new).get? i with
    | some a =>
      rw [hp, hn] at hchar
      have ha : '\n' ∉ a := splitLines_no_lf new a (List.get?_mem hn)
      have hl2 : l = if triggersAt b a = true then appendTimeLogToLine a now else a :=
        Option.some.inj hchar
      rw [hl2]
      by_cases htr : triggersAt b a = true
      · rw [if_pos htr]
        exact no_lf_append ha hnow
      · rw [if_neg htr]
        exact ha
    | none =>
      rw [hp, hn] at hchar
      exact Option.noConfusion hchar
  | none =>
    cases hn : (splitLines new).get? i with
    | some a =>
      rw [hp, hn] at hchar
      have ha : '\n' ∉ a := splitLines_no_lf new a (List.get?_mem hn)
      rw [Option.some.inj hchar]
      exact ha
    | none =>
      rw [hp, hn] at hchar
      exact Option.noConfusion hchar


/-- C10: when no line index of the snapshot pair satisfies the
completion-transition conditions, the auto-detection transform returns the
new content exactly (string equality); when at least one index triggers,
the result is the processed line array joined by a single LF, so every
CRLF or LF separator of the new content is rendered as a single LF in the
returned document. -/
theorem c10_frame (prev new now : Str) :
    ((∀ i b a, (splitLines prev).get? i = some b →
        (splitLines new).get? i = some a → triggersAt b a = false) →
      addTimeLogForDoneTasks prev new now = new) ∧
    ((∃ i b a, (splitLines prev).get? i = some b ∧
        (splitLines new).get? i = some a ∧ triggersAt b a = true) →
      addTimeLogForDoneTasks prev new now =
        joinLF (doneTaskLines prev new now)) := by
  constructor
  · intro h
    have hA : ¬ (anyDone prev new now = true) := by
      intro hAny
      obtain ⟨i, b, a, hb, ha, ht⟩ := (anyDone_iff prev new now).mp hAny
      rw [h i b a hb ha] at ht
      exact absurd ht (by simp)
    unfold addTimeLogForDoneTasks
    rw [if_neg hA]
  · intro h
    unfold addTimeLogForDoneTasks
    rw [if_pos ((anyDone_iff prev new now).mpr h)]

/-- Witness for C10 at concrete inputs: a pair with no trigger returns the
new content unchanged, and a pair with a trigger returns the joined
processed lines. -/
theorem c10_frame_witness :
    addTimeLogForDoneTasks [] "- [x] t".data "2025-01-02 -09:30".data =
      "- [x] t".data ∧
    addTimeLogForDoneTasks "- [ ] t".data "- [x] t".data "2025-01-02 -09:30".data =
      joinLF (doneTaskLines "- [ ] t".data "- [x] t".data
        "2025-01-02 -09:30".data) := by
  constructor
  · refine (c10_frame [] "- [x] t".data "2025-01-02 -09:30".data).1 ?_
    intro i b a hb ha
    have h0 : splitLines ([] : Str) = [[]] := rfl
    rw [h0] at hb
    cases i with
    | zero =>
      obtain rfl : b = [] := by simpa using hb.symm
      rfl
    | succ n =>
      exact absurd hb (by simp)
  · refine (c10_frame "- [ ] t".data "- [x] t".data "2025-01-02 -09:30".data).2 ?_
    exact ⟨0, "- [ ] t".data, "- [x] t".data, by decide, by decide, by decide⟩


/-- C4: the auto-detection transform mutates line i exactly when the
previous snapshot line i is an unchecked task line, the new line i is a
checked task line, and the new line i has no marker yet (so a line that
already carries a marker is never auto-appended to); only indices below
the shorter line count are processed, longer-new lines pass through
unchanged; and re-running the transform on the already-logged pair with
any later timestamp produces no further change. -/
theorem c4_autodetect (prev new now now2 : Str) (hts : tsShape now = true) :
    (∀ i, (doneTaskLines prev new now).get? i =
        match (splitLines prev).get? i, (splitLines new).get? i with
        | some b, some a =>
            some (if triggersAt b a = true then appendTimeLogToLine a now else a)
        | none, some a => some a
        | some _, none => none
        | none, none => none) ∧
    addTimeLogForDoneTasks prev (addTimeLogForDoneTasks prev new now) now2 =
      addTimeLogForDoneTasks prev new now := by
  refine ⟨fun i => doneTaskLines_get? prev new now i, ?_⟩
  by_cases hA : anyDone prev new now = true
  · have hres : addTimeLogForDoneTasks prev new now =
        joinLF (doneTaskLines prev new now) := by
      unfold addTimeLogForDoneTasks
      rw [if_pos hA]
    have hA2 : ¬ (anyDone prev (joinLF (doneTaskLines prev new now)) now2 = true) := by
      intro h2
      obtain ⟨i, b, x, hb, hx, ht⟩ := (anyDone_iff _ _ _).mp h2
      obtain ⟨hlen, hidx⟩ := splitLines_joinLF (doneTaskLines prev new now)
        (doneTaskLines_ne_nil prev new now) (doneTaskLines_no_lf prev new now hts)
      obtain ⟨hiS, -⟩ := List.get?_eq_some.mp hx
      have hiL : i < (doneTaskLines prev new now).length := by
        rw [← hlen]
        exact hiS
      obtain ⟨y, hy⟩ : ∃ y, (doneTaskLines prev new now).get? i = some y :=
        ⟨_, List.get?_eq_get hiL⟩
      have hxy := hidx i x y hx hy
      have hchar := doneTaskLines_get? prev new now i
      rw [hy] at hchar
      cases hp : (splitLines prev).get? i with
      | none =>
        rw [hp] at hb
        exact Option.noConfusion hb
      | some b2 =>
        obtain rfl : b2 = b := by
          rw [hp] at hb
          exact Option.some.inj hb
        cases hn : (splitLines new).get? i with
        | none =>
          rw [hp, hn] at hchar
          exact Option.noConfusion hchar
        | some a =>
          rw [hp, hn] at hchar
          have hy2 : y = if triggersAt b2 a = true then appendTimeLogToLine a now else a :=
            Option.some.inj hchar
          by_cases htr : triggersAt b2 a = true
          · have hcy : containsTimeLogs y = true := by
              rw [hy2, if_pos htr]
              refine contains_append_new (findMarker_none_of_not_contains ?_) hts
              unfold triggersAt at htr
              simp only [Bool.and_eq_true, Bool.not_eq_true'] at htr
              exact htr.2
            have hcx : containsTimeLogs x = true := by
              rcases hxy with rfl | rfl
              · exact hcy
              · exact contains_stripCR hcy
            unfold triggersAt at ht
            simp only [Bool.and_eq_true, Bool.not_eq_true'] at ht
            rw [hcx] at ht
            exact absurd ht.2 (by simp)
          · rw [if_neg htr] at hy2
            subst hy2
            rcases hxy with rfl | rfl
            · exact absurd ht htr
            · exact absurd (triggers_stripCR ht) htr
    rw [hres]
    unfold addTimeLogForDoneTasks
    rw [if_neg hA2]
  · have hres : addTimeLogForDoneTasks prev new now = new := by
      unfold addTimeLogForDoneTasks
      rw [if_neg hA]
    rw [hres]
    have hA2 : ¬ (anyDone prev new now2 = true) := by
      intro h2
      exact hA ((anyDone_iff prev new now).mpr ((anyDone_iff prev new now2).mp h2))
    unfold addTimeLogForDoneTasks
    rw [if_neg hA2]

/-- Witness for C4 at concrete inputs: the timestamp has the logged shape
and re-running the transform on the logged pair changes nothing. -/
theorem c4_autodetect_witness :
    tsShape "2025-01-02 -09:30".data = true ∧
    addTimeLogForDoneTasks "- [ ] t".data
        (addTimeLogForDoneTasks "- [ ] t".data "- [x] t".data "2025-01-02 -09:30".data)
        "2025-01-03 -10:00".data =
      addTimeLogForDoneTasks "- [ ] t".data "- [x] t".data "2025-01-02 -09:30".data :=
  ⟨by decide, (c4_autodetect "- [ ] t".data "- [x] t".data "2025-01-02 -09:30".data
      "2025-01-03 -10:00".data (by decide)).2⟩

end TimeLogs
